import Mathlib

set_option maxHeartbeats 1000000

namespace NebulaStorage

/-! Shallow embedding of the per-partition UPDATE/UPSERT write path of the
storage node: the data model (values, expressions, rows, schemas, keys,
write batches), the `UpdateTagNode` / `UpdateEdgeNode` executors of
storage/exec/UpdateNode.h, the `UpdateResNode` of
storage/exec/UpdateResultNode.h, and the per-partition failure
aggregation of `LookupProcessor::process` with `BaseProcessor`'s
`handleErrorCode` / `pushResultCode`. -/

/-- Property values (common/datatypes Value), restricted to the forms the
update path manipulates. -/
inductive Value where
  | null : Value
  | bool (b : Bool) : Value
  | int (n : Int) : Value
  | str (s : String) : Value
deriving DecidableEq, Repr

/-- Expressions of the external expression engine (an out-of-scope
collaborator per spec section 6), restricted to the constant / property /
addition forms the update path exercises. -/
inductive Expr where
  | const (v : Value) : Expr
  | prop (name : String) : Expr
  | add (a b : Expr) : Expr
deriving DecidableEq, Repr

/-- StorageExpressionContext: property name to value. A single executor
works on one tag (or edge) name, so the name component of
setTagProp/setEdgeProp is dropped. -/
abbrev Ctx := String → Value

def Ctx.empty : Ctx := fun _ => Value.null

def Ctx.set (c : Ctx) (n : String) (v : Value) : Ctx :=
  fun m => if m = n then v else c m

/-- `Expression::eval(expr, ctx)` of the expression engine. -/
def evalExpr : Expr → Ctx → Value
  | .const v, _ => v
  | .prop n, c => c n
  | .add a b, c =>
    match evalExpr a c, evalExpr b c with
    | .int x, .int y => .int (x + y)
    | _, _ => .null

/-- The `props_` member: an unordered map from property name to value,
represented as an association list whose `set` replaces any previous
binding. -/
abbrev Props := List (String × Value)

def Props.get (p : Props) (k : String) : Option Value :=
  (p.find? (fun e => e.1 == k)).map (fun e => e.2)

def Props.set (p : Props) (k : String) (v : Value) : Props :=
  (k, v) :: p.filter (fun e => e.1 != k)

/-- Result codes used on the modelled paths (the repository-wide ErrorCode
enum lives outside this snapshot; constructors follow the names the
sources use). `E_INDEX_LOCKED` is modelled from the spec: the error
taxonomy of spec section 7 names an "IndexLocked" refusal; the sources in
this snapshot never return such a code. -/
inductive ErrorCode where
  | SUCCEEDED
  | E_STORAGE_QUERY_CONCURRENT_MODIFY
  | E_STORAGE_QUERY_INVALID_DATA
  | E_STORAGE_QUERY_FILTER_NOT_PASSED
  | E_STORAGE_KVSTORE_KEY_NOT_FOUND
  | E_STORAGE_SCHEMA_TAG_NOT_FOUND
  | E_STORAGE_SCHEMA_EDGE_NOT_FOUND
  | E_STORAGE_SCHEMA_TAG_PROP_NOT_FOUND
  | E_STORAGE_SCHEMA_EDGE_PROP_NOT_FOUND
  | E_STORAGE_SCHEMA_NO_DEFAULT_VALUE_AND_NOT_NULLABLE
  | E_STORAGE_QUERY_READ_TAG_PROP_FAILD
  | E_STORAGE_QUERY_READ_EDGE_PROP_FAILED
  | E_INDEX_NOT_FOUND
  | E_LEADER_CHANGED
  | E_INDEX_LOCKED
  | E_UNKNOWN
deriving DecidableEq, Repr

/-- Keys of the key codec (NebulaKeyUtils / IndexKeyUtils /
OperationKeyUtils), abstracted from the byte layout: one constructor per
key family. `deleteOp` and `modifyOp` are the operation-log keys of
OperationKeyUtils (`deleteOperationKey(part)`,
`modifyOperationKey(part, key)`). -/
inductive Key where
  | vertex (partId : Nat) (vid : String) (tagId : Int)
  | edge (partId : Nat) (src : String) (edgeType : Int) (ranking : Int) (dst : String)
  | vertexIndex (partId : Nat) (indexId : Int) (vid : String) (vals : List Value)
  | edgeIndex (partId : Nat) (indexId : Int) (src : String) (ranking : Int) (dst : String)
      (vals : List Value)
  | deleteOp (partId : Nat)
  | modifyOp (partId : Nat) (indexKey : Key)
deriving DecidableEq, Repr

/-- Values stored by a batch operation: an encoded row, an index key
carried as the value of a delete-operation log record, or an index value
(the optional TTL anchor of IndexKeyUtils::indexVal). -/
inductive BVal where
  | rowV (row : Props)
  | keyV (k : Key)
  | idxV (ttl : Option Value)
deriving DecidableEq, Repr

/-- One operation of a kvstore::BatchHolder, accumulated in insertion
order. -/
inductive BatchOp where
  | put (k : Key) (v : BVal)
  | remove (k : Key)
deriving DecidableEq, Repr

abbrev Batch := List BatchOp

/-- Per-(space, part) index state reported by the oracle
(StorageEnv::getIndexState). -/
inductive IndexState where
  | normal
  | rebuilding
  | locked
deriving DecidableEq, Repr

def checkRebuilding (s : IndexState) : Bool := s == IndexState.rebuilding

def checkIndexLocked (s : IndexState) : Bool := s == IndexState.locked

/-- The executor environment: the index state oracle. The kvstore append
reply and the transaction manager are passed separately where needed. -/
structure Env where
  indexState : Int → Nat → IndexState

/-- One column of a schema: name, nullability, optional default value
expression, and the declared-type check RowWriterV2::setValue performs. -/
structure Field where
  name : String
  nullable : Bool
  defaultVal : Option Expr
  typeOk : Value → Bool

/-- A schema version (meta::NebulaSchemaProvider): ordered columns and the
optional TTL column. -/
structure Schema where
  fields : List Field
  ttlCol : Option String

def Schema.field (s : Schema) (n : String) : Option Field :=
  s.fields.find? (fun f => f.name == n)

/-- A row reader bound to one decoded row: property name to stored
value. -/
abbrev Reader := String → Option Value

def rowReader (row : Props) : Reader := fun n => row.get n

/-- Modelled from the spec: `QueryUtils::readValue` (row reader, spec
section 4.3) whose source is not in this snapshot — the stored value,
else the column default evaluated under a null context, else null if
nullable, else failure. -/
def readValue (r : Reader) (f : Field) : Option Value :=
  match r f.name with
  | some v => some v
  | none =>
    match f.defaultVal with
    | some e => some (evalExpr e Ctx.empty)
    | none => if f.nullable then some Value.null else none

/-- meta::cpp2::IndexItem: index id, the tag id / edge type it indexes,
and its ordered field list. -/
structure IndexItem where
  indexId : Int
  schemaId : Int
  fields : List String
deriving DecidableEq, Repr

/-- IndexKeyUtils::collectIndexValues: read every indexed field through
the reader; any failure empties the key. -/
def collectIndexValues (r : Reader) : List String → Option (List Value)
  | [] => some []
  | n :: rest =>
    match r n with
    | none => none
    | some v => (collectIndexValues r rest).map (fun vs => v :: vs)

/-- UpdateTagNode::indexKey — `none` models the empty string the source
returns when collectIndexValues fails. -/
def vertexIndexKey (partId : Nat) (index : IndexItem) (vId : String) (r : Reader) : Option Key :=
  (collectIndexValues r index.fields).map
    (fun vs => Key.vertexIndex partId index.indexId vId vs)

/-- UpdateEdgeNode::indexKey. -/
def edgeIndexKey (partId : Nat) (index : IndexItem) (src : String) (ranking : Int)
    (dst : String) (r : Reader) : Option Key :=
  (collectIndexValues r index.fields).map
    (fun vs => Key.edgeIndex partId index.indexId src ranking dst vs)

/-- CommonUtils::ttlValue on the freshly encoded row: the TTL anchor when
the schema declares a TTL column. -/
def ttlValue (schema : Schema) (r : Reader) : Option Value :=
  match schema.ttlCol with
  | none => none
  | some c => r c

/-- storage::cpp2::UpdatedProp after `Expression::decode`: `none` models a
decode failure. -/
structure UpdatedProp where
  name : String
  value : Option Expr
deriving DecidableEq, Repr

/-- The first loop of updateAndWriteBack: decode each update expression,
evaluate it in the current context, assign into `props_` and update the
context so later updates observe earlier assignments (left to right). -/
def applyUpdates : List UpdatedProp → Props → Ctx → Option (Props × Ctx)
  | [], props, ctx => some (props, ctx)
  | u :: rest, props, ctx =>
    match u.value with
    | none => none
    | some e =>
      let v := evalExpr e ctx
      applyUpdates rest (props.set u.name v) (ctx.set u.name v)

/-- The second loop of updateAndWriteBack: RowWriterV2::setValue for every
entry of `props_` — failure on an unknown field or a declared-type
mismatch. -/
def setAllValues (schema : Schema) : Props → Props → Option Props
  | [], acc => some acc
  | (n, v) :: rest, acc =>
    match schema.field n with
    | none => none
    | some f => if f.typeOk v then setAllValues schema rest (acc.set n v) else none

/-- The value a column receives when it is not set by the request: its
default evaluated under a null context, else null. -/
def fieldDefault (f : Field) : Value :=
  match f.defaultVal with
  | some e => evalExpr e Ctx.empty
  | none => Value.null

/-- RowWriterV2::finish: every schema column still unset receives its
default, else null if nullable, else the encode fails. -/
def finishRow : List Field → Props → Option Props
  | [], acc => some acc
  | f :: rest, acc =>
    if (acc.get f.name).isSome then finishRow rest acc
    else
      match f.defaultVal with
      | some e => finishRow rest (acc.set f.name (evalExpr e Ctx.empty))
      | none => if f.nullable then finishRow rest (acc.set f.name Value.null) else none

/-- The rowWriter_ pipeline of updateAndWriteBack: setValue for every
collected property, then finish. The result is the encoded row `nVal`. -/
def writeRow (schema : Schema) (props : Props) : Option Props :=
  match setAllValues schema props [] with
  | none => none
  | some written => finishRow schema.fields written

/-- UpdateNode::checkField. -/
def checkField (isEdge : Bool) (f : Option Field) : Except ErrorCode Field :=
  match f with
  | none =>
    .error (if isEdge then ErrorCode.E_STORAGE_SCHEMA_EDGE_PROP_NOT_FOUND
            else ErrorCode.E_STORAGE_SCHEMA_TAG_PROP_NOT_FOUND)
  | some f => .ok f

/-- UpdateNode::getDefaultOrNullValue. -/
def getDefaultOrNullValue (props : Props) (f : Field) (n : String) : Except ErrorCode Props :=
  match f.defaultVal with
  | some e => .ok (props.set f.name (evalExpr e Ctx.empty))
  | none =>
    if f.nullable then .ok (props.set n Value.null)
    else .error ErrorCode.E_STORAGE_SCHEMA_NO_DEFAULT_VALUE_AND_NOT_NULLABLE

/-- The inner loop of checkPropsAndGetDefaultValue over the dependency set
of one set-clause target. -/
def checkDepProps (schema : Schema) (isEdge : Bool) :
    List String → List String → Props → Except ErrorCode (List String × Props)
  | [], checked, props => .ok (checked, props)
  | p :: rest, checked, props =>
    if p ∈ checked then checkDepProps schema isEdge rest checked props
    else
      match checkField isEdge (schema.field p) with
      | .error e => .error e
      | .ok f =>
        match getDefaultOrNullValue props f p with
        | .error e => .error e
        | .ok props2 => checkDepProps schema isEdge rest (p :: checked) props2

/-- The loop of checkPropsAndGetDefaultValue over depPropMap_: check the
dependencies of each set-clause target, then mark the target itself as
checked (the target needs no default). -/
def checkDepMap (schema : Schema) (isEdge : Bool) :
    List (String × List String) → List String → Props → Except ErrorCode (List String × Props)
  | [], checked, props => .ok (checked, props)
  | (tgt, deps) :: rest, checked, props =>
    match checkDepProps schema isEdge deps checked props with
    | .error e => .error e
    | .ok (checked2, props2) =>
      match checkField isEdge (schema.field tgt) with
      | .error e => .error e
      | .ok _ => checkDepMap schema isEdge rest (tgt :: checked2) props2

/-- The final loop of checkPropsAndGetDefaultValue: every schema column
not in the set clause (nor already checked) must have a default or be
nullable. -/
def fillRemaining (checked : List String) : List Field → Props → Except ErrorCode Props
  | [], props => .ok props
  | f :: rest, props =>
    if f.name ∈ checked then fillRemaining checked rest props
    else
      match getDefaultOrNullValue props f f.name with
      | .error e => .error e
      | .ok props2 => fillRemaining checked rest props2

/-- UpdateNode::checkPropsAndGetDefaultValue (upsert insert path), starting
from the empty `props_`. -/
def checkPropsAndGetDefaultValue (schema : Schema) (isEdge : Bool)
    (depPropMap : List (String × List String)) : Except ErrorCode Props :=
  match checkDepMap schema isEdge depPropMap [] [] with
  | .error e => .error e
  | .ok (checked, props) => fillRemaining checked schema.fields props

/-- TagContext: schema versions per tag id (an empty list models both a
missing map entry and an empty version vector, which the source treats
identically) and the tag name map. -/
structure TagContext where
  schemas : Int → List Schema
  tagNames : Int → Option String

/-- EdgeContext: schema versions keyed by the unsigned edge type, and the
edge name map keyed by the signed edge type. -/
structure EdgeContext where
  schemas : Nat → List Schema
  edgeNames : Int → Option String

/-- UpdateTagNode::getLatestTagSchemaAndName. -/
def getLatestTagSchemaAndName (tc : TagContext) (tagId : Int) :
    Except ErrorCode (Schema × String) :=
  match (tc.schemas tagId).getLast? with
  | none => .error ErrorCode.E_STORAGE_SCHEMA_TAG_NOT_FOUND
  | some schema =>
    match tc.tagNames tagId with
    | none => .error ErrorCode.E_STORAGE_SCHEMA_TAG_NOT_FOUND
    | some n => .ok (schema, n)

/-- UpdateEdgeNode::getLatestEdgeSchemaAndName: the schema is looked up
under `std::abs(edgeType_)`, the name under the signed edge type. -/
def getLatestEdgeSchemaAndName (ec : EdgeContext) (edgeType : Int) :
    Except ErrorCode (Schema × String) :=
  match (ec.schemas edgeType.natAbs).getLast? with
  | none => .error ErrorCode.E_STORAGE_SCHEMA_EDGE_NOT_FOUND
  | some schema =>
    match ec.edgeNames edgeType with
    | none => .error ErrorCode.E_STORAGE_SCHEMA_EDGE_NOT_FOUND
    | some n => .ok (schema, n)

def kVid : String := "_vid"

def kTag : String := "_tag"

def kSrc : String := "_src"

def kType : String := "_type"

def kRank : String := "_rank"

def kDst : String := "_dst"

/-- Install every collected property into the expression context. -/
def buildCtx (props : Props) (base : Ctx) : Ctx :=
  props.foldl (fun c e => c.set e.1 e.2) base

/-- The property-collection loop of collTagProp / collEdgeProp: every
column of the latest schema is materialized through
QueryUtils::readValue; a failure yields the given read-prop error code. -/
def collPropsGo (errCode : ErrorCode) (r : Reader) : List Field → Props → Except ErrorCode Props
  | [], acc => .ok acc
  | f :: rest, acc =>
    match readValue r f with
    | none => .error errCode
    | some v => collPropsGo errCode r rest (acc.set f.name v)

/-- Filter / status reported by the upstream chain
(PlanContext::resultStat_). -/
inductive ResultStatus where
  | normal
  | illegalData
  | filterOut
deriving DecidableEq, Repr

/-- Modelled from the spec: the output of the upstream TagNode/FilterNode
chain invoked through RelNode::execute (their sources are not in this
snapshot) — the read result code, the filter status, the row reader when
the row was found, and the row key. -/
structure ChainResult where
  code : ErrorCode
  resultStat : ResultStatus
  reader : Option Reader
  key : Key

/-- The mutable executor state assembled by collTagProp / insertTagProps
and consumed by updateAndWriteBack: schema_, tagName_, props_, expCtx_,
whether val_ is non-empty, reader_, and key_. -/
structure TagRunState where
  schema : Schema
  tagName : String
  props : Props
  ctx : Ctx
  valNonempty : Bool
  reader : Option Reader
  key : Key

/-- Static configuration of one UpdateTagNode. -/
structure TagExecCfg where
  spaceId : Int
  tagId : Int
  insertable : Bool
  indexes : List IndexItem
  updatedProps : List UpdatedProp
  depPropMap : List (String × List String)
  tagContext : TagContext
  env : Env

/-- UpdateTagNode::collTagProp. -/
def collTagProp (cfg : TagExecCfg) (r : Reader) (chainKey : Key) (vId : String) :
    Except ErrorCode TagRunState :=
  match getLatestTagSchemaAndName cfg.tagContext cfg.tagId with
  | .error e => .error e
  | .ok (schema, tagName) =>
    match collPropsGo ErrorCode.E_STORAGE_QUERY_READ_TAG_PROP_FAILD r schema.fields [] with
    | .error e => .error e
    | .ok props =>
      let base := (Ctx.empty.set kVid (Value.str vId)).set kTag (Value.int cfg.tagId)
      .ok ⟨schema, tagName, props, buildCtx props base, true, some r, chainKey⟩

/-- UpdateTagNode::insertTagProps (sets planContext_->insert_). -/
def insertTagProps (cfg : TagExecCfg) (partId : Nat) (vId : String) :
    Except ErrorCode TagRunState :=
  match getLatestTagSchemaAndName cfg.tagContext cfg.tagId with
  | .error e => .error e
  | .ok (schema, tagName) =>
    match checkPropsAndGetDefaultValue schema false cfg.depPropMap with
    | .error e => .error e
    | .ok props =>
      let base := (Ctx.empty.set kVid (Value.str vId)).set kTag (Value.int cfg.tagId)
      .ok ⟨schema, tagName, props, buildCtx props base, false, none,
           Key.vertex partId vId cfg.tagId⟩

/-- The branch of UpdateTagNode::execute choosing between the insert path,
property collection from the existing row, and KeyNotFound. -/
def tagBranch (cfg : TagExecCfg) (chain : ChainResult) (partId : Nat) (vId : String) :
    Except ErrorCode TagRunState :=
  match chain.reader with
  | none =>
    if cfg.insertable then insertTagProps cfg partId vId
    else .error ErrorCode.E_STORAGE_KVSTORE_KEY_NOT_FOUND
  | some r => collTagProp cfg r chain.key vId

/-- Step 1 of the index-delta loop of UpdateTagNode::updateAndWriteBack:
when an old row exists, remove its index entry — or log a
delete-operation record while rebuilding — and abort (`none`) when the
oracle reports locked. -/
def tagIndexStep1 (env : Env) (spaceId : Int) (st : TagRunState) (partId : Nat)
    (vId : String) (index : IndexItem) : Option Batch :=
  if st.valNonempty then
    match st.reader with
    | none => none
    | some r =>
      match vertexIndexKey partId index vId r with
      | none => some []
      | some oi =>
        if checkRebuilding (env.indexState spaceId partId) then
          some [BatchOp.put (Key.deleteOp partId) (BVal.keyV oi)]
        else if checkIndexLocked (env.indexState spaceId partId) then none
        else some [BatchOp.remove oi]
  else some []

/-- Step 2: put the new index entry — or log a modify-operation record
while rebuilding — and abort (`none`) when the oracle reports locked. -/
def tagIndexStep2 (env : Env) (spaceId : Int) (schema : Schema) (partId : Nat)
    (vId : String) (nReader : Reader) (index : IndexItem) (ops1 : Batch) : Option Batch :=
  match vertexIndexKey partId index vId nReader with
  | none => some ops1
  | some ni =>
    if checkRebuilding (env.indexState spaceId partId) then
      some (ops1 ++ [BatchOp.put (Key.modifyOp partId ni)
                       (BVal.idxV (ttlValue schema nReader))])
    else if checkIndexLocked (env.indexState spaceId partId) then none
    else some (ops1 ++ [BatchOp.put ni (BVal.idxV (ttlValue schema nReader))])

/-- The per-index body of the index-delta loop of
UpdateTagNode::updateAndWriteBack: only indexes targeting this tag id
contribute. -/
def tagIndexOpsOne (env : Env) (spaceId : Int) (tagId : Int) (st : TagRunState)
    (partId : Nat) (vId : String) (nReader : Reader) (index : IndexItem) : Option Batch :=
  if tagId = index.schemaId then
    match tagIndexStep1 env spaceId st partId vId index with
    | none => none
    | some ops1 => tagIndexStep2 env spaceId st.schema partId vId nReader index ops1
  else some []

/-- The index-delta loop over indexes_. -/
def tagIndexOpsAll (env : Env) (spaceId : Int) (tagId : Int) (st : TagRunState)
    (partId : Nat) (vId : String) (nReader : Reader) : List IndexItem → Option Batch
  | [] => some []
  | i :: rest =>
    match tagIndexOpsOne env spaceId tagId st partId vId nReader i with
    | none => none
    | some ops =>
      match tagIndexOpsAll env spaceId tagId st partId vId nReader rest with
      | none => none
      | some ops2 => some (ops ++ ops2)

/-- UpdateTagNode::updateAndWriteBack: apply the updates, encode the new
row, compute the index delta, and place everything — index operations
first, the primary-row put last — into one batch. `none` models
folly::none. The new-row reader re-reads the freshly encoded row. -/
def updateTagAndWriteBack (cfg : TagExecCfg) (st : TagRunState) (partId : Nat)
    (vId : String) : Option Batch :=
  match applyUpdates cfg.updatedProps st.props st.ctx with
  | none => none
  | some (props2, _) =>
    match writeRow st.schema props2 with
    | none => none
    | some row =>
      match tagIndexOpsAll cfg.env cfg.spaceId cfg.tagId st partId vId (rowReader row)
          cfg.indexes with
      | none => none
      | some ops => some (ops ++ [BatchOp.put st.key (BVal.rowV row)])

/-- Row identity in the vertices memory-lock table:
(space, part, tag, vid). -/
abbrev VMLI := Int × Nat × Int × String

/-- Row identity in the edges memory-lock table:
(space, part, src, type, rank, dst). -/
abbrev EMLI := Int × Nat × String × Int × Int × String

/-- Observable outcome of one executor run: the returned code, every batch
handed to kvstore::asyncAppendBatch (in order), whether the upstream
read chain ran, the conflicting lock key logged on a lock conflict, and
planContext_->insert_. -/
structure ExecOutcome (κ : Type) where
  code : ErrorCode
  appends : List Batch
  didRead : Bool
  conflict : Option κ
  insertFlag : Bool
deriving DecidableEq, Repr

/-- The tail of UpdateTagNode::execute: a failed updateAndWriteBack yields
the generic invalid-data code with nothing committed; otherwise the batch
goes to the replicated KV layer in a single asyncAppendBatch call whose
callback code is returned. -/
def runTagWriteBack (cfg : TagExecCfg) (st : TagRunState) (appendCode : ErrorCode)
    (partId : Nat) (vId : String) (flag : Bool) : ExecOutcome VMLI :=
  match updateTagAndWriteBack cfg st partId vId with
  | none => ⟨ErrorCode.E_STORAGE_QUERY_INVALID_DATA, [], true, none, flag⟩
  | some b => ⟨appendCode, [b], true, none, flag⟩

/-- UpdateTagNode::execute. `lockTable` is the process-wide vertices
memory-lock table; `chain` the result of the upstream read/filter chain;
`appendCode` the code the replicated KV layer reports to the append
callback. -/
def UpdateTagNode_execute (cfg : TagExecCfg) (lockTable : List VMLI)
    (chain : ChainResult) (appendCode : ErrorCode) (partId : Nat) (vId : String) :
    ExecOutcome VMLI :=
  if (cfg.spaceId, partId, cfg.tagId, vId) ∈ lockTable then
    ⟨ErrorCode.E_STORAGE_QUERY_CONCURRENT_MODIFY, [], false,
     some (cfg.spaceId, partId, cfg.tagId, vId), false⟩
  else if chain.code = ErrorCode.SUCCEEDED then
    match chain.resultStat with
    | .illegalData => ⟨ErrorCode.E_STORAGE_QUERY_INVALID_DATA, [], true, none, false⟩
    | .filterOut => ⟨ErrorCode.E_STORAGE_QUERY_FILTER_NOT_PASSED, [], true, none, false⟩
    | .normal =>
      let flag := chain.reader.isNone && cfg.insertable
      match tagBranch cfg chain partId vId with
      | .error e => ⟨e, [], true, none, flag⟩
      | .ok st => runTagWriteBack cfg st appendCode partId vId flag
  else ⟨chain.code, [], true, none, false⟩

/-- storage::cpp2::EdgeKey. -/
structure EdgeKey where
  src : String
  edgeType : Int
  ranking : Int
  dst : String
deriving DecidableEq, Repr

/-- The mutable executor state assembled by collEdgeProp /
insertEdgeProps. -/
structure EdgeRunState where
  schema : Schema
  edgeName : String
  props : Props
  ctx : Ctx
  valNonempty : Bool
  reader : Option Reader
  key : Key

/-- Static configuration of one UpdateEdgeNode. The transaction-manager
path (updateEdgeAtomic) is an out-of-scope collaborator per spec
section 6 and is not modelled; the embedding follows the direct
asyncAppendBatch branch. -/
structure EdgeExecCfg where
  spaceId : Int
  edgeType : Int
  insertable : Bool
  indexes : List IndexItem
  updatedProps : List UpdatedProp
  depPropMap : List (String × List String)
  edgeContext : EdgeContext
  env : Env

/-- The implicit-column context base of collEdgeProp / insertEdgeProps:
kSrc, kDst, kRank, kType from the requested edge key. -/
def edgeCtxBase (ek : EdgeKey) : Ctx :=
  (((Ctx.empty.set kSrc (Value.str ek.src)).set kDst (Value.str ek.dst)).set kRank
      (Value.int ek.ranking)).set kType (Value.int ek.edgeType)

/-- UpdateEdgeNode::collEdgeProp. -/
def collEdgeProp (cfg : EdgeExecCfg) (r : Reader) (chainKey : Key) (ek : EdgeKey) :
    Except ErrorCode EdgeRunState :=
  match getLatestEdgeSchemaAndName cfg.edgeContext cfg.edgeType with
  | .error e => .error e
  | .ok (schema, edgeName) =>
    match collPropsGo ErrorCode.E_STORAGE_QUERY_READ_EDGE_PROP_FAILED r schema.fields [] with
    | .error e => .error e
    | .ok props =>
      .ok ⟨schema, edgeName, props, buildCtx props (edgeCtxBase ek), true, some r, chainKey⟩

/-- UpdateEdgeNode::insertEdgeProps (sets planContext_->insert_). -/
def insertEdgeProps (cfg : EdgeExecCfg) (partId : Nat) (ek : EdgeKey) :
    Except ErrorCode EdgeRunState :=
  match getLatestEdgeSchemaAndName cfg.edgeContext cfg.edgeType with
  | .error e => .error e
  | .ok (schema, edgeName) =>
    match checkPropsAndGetDefaultValue schema true cfg.depPropMap with
    | .error e => .error e
    | .ok props =>
      .ok ⟨schema, edgeName, props, buildCtx props (edgeCtxBase ek), false, none,
           Key.edge partId ek.src ek.edgeType ek.ranking ek.dst⟩

/-- The branch of the UpdateEdgeNode op closure choosing between the
insert path, property collection, and KeyNotFound. -/
def edgeBranch (cfg : EdgeExecCfg) (chain : ChainResult) (partId : Nat) (ek : EdgeKey) :
    Except ErrorCode EdgeRunState :=
  match chain.reader with
  | none =>
    if cfg.insertable then insertEdgeProps cfg partId ek
    else .error ErrorCode.E_STORAGE_KVSTORE_KEY_NOT_FOUND
  | some r => collEdgeProp cfg r chain.key ek

/-- Step 1 of the index-delta loop of UpdateEdgeNode::updateAndWriteBack. -/
def edgeIndexStep1 (env : Env) (spaceId : Int) (st : EdgeRunState) (partId : Nat)
    (ek : EdgeKey) (index : IndexItem) : Option Batch :=
  if st.valNonempty then
    match st.reader with
    | none => none
    | some r =>
      match edgeIndexKey partId index ek.src ek.ranking ek.dst r with
      | none => some []
      | some oi =>
        if checkRebuilding (env.indexState spaceId partId) then
          some [BatchOp.put (Key.deleteOp partId) (BVal.keyV oi)]
        else if checkIndexLocked (env.indexState spaceId partId) then none
        else some [BatchOp.remove oi]
  else some []

/-- Step 2 of the index-delta loop of UpdateEdgeNode::updateAndWriteBack. -/
def edgeIndexStep2 (env : Env) (spaceId : Int) (schema : Schema) (partId : Nat)
    (ek : EdgeKey) (nReader : Reader) (index : IndexItem) (ops1 : Batch) : Option Batch :=
  match edgeIndexKey partId index ek.src ek.ranking ek.dst nReader with
  | none => some ops1
  | some ni =>
    if checkRebuilding (env.indexState spaceId partId) then
      some (ops1 ++ [BatchOp.put (Key.modifyOp partId ni)
                       (BVal.idxV (ttlValue schema nReader))])
    else if checkIndexLocked (env.indexState spaceId partId) then none
    else some (ops1 ++ [BatchOp.put ni (BVal.idxV (ttlValue schema nReader))])

/-- The per-index body of the index-delta loop of
UpdateEdgeNode::updateAndWriteBack. -/
def edgeIndexOpsOne (env : Env) (spaceId : Int) (edgeType : Int) (st : EdgeRunState)
    (partId : Nat) (ek : EdgeKey) (nReader : Reader) (index : IndexItem) : Option Batch :=
  if edgeType = index.schemaId then
    match edgeIndexStep1 env spaceId st partId ek index with
    | none => none
    | some ops1 => edgeIndexStep2 env spaceId st.schema partId ek nReader index ops1
  else some []

/-- The index-delta loop over indexes_ (edge). -/
def edgeIndexOpsAll (env : Env) (spaceId : Int) (edgeType : Int) (st : EdgeRunState)
    (partId : Nat) (ek : EdgeKey) (nReader : Reader) : List IndexItem → Option Batch
  | [] => some []
  | i :: rest =>
    match edgeIndexOpsOne env spaceId edgeType st partId ek nReader i with
    | none => none
    | some ops =>
      match edgeIndexOpsAll env spaceId edgeType st partId ek nReader rest with
      | none => none
      | some ops2 => some (ops ++ ops2)

/-- UpdateEdgeNode::updateAndWriteBack. -/
def updateEdgeAndWriteBack (cfg : EdgeExecCfg) (st : EdgeRunState) (partId : Nat)
    (ek : EdgeKey) : Option Batch :=
  match applyUpdates cfg.updatedProps st.props st.ctx with
  | none => none
  | some (props2, _) =>
    match writeRow st.schema props2 with
    | none => none
    | some row =>
      match edgeIndexOpsAll cfg.env cfg.spaceId cfg.edgeType st partId ek (rowReader row)
          cfg.indexes with
      | none => none
      | some ops => some (ops ++ [BatchOp.put st.key (BVal.rowV row)])

/-- The tail of UpdateEdgeNode::execute on the direct (non-transactional)
branch. -/
def runEdgeWriteBack (cfg : EdgeExecCfg) (st : EdgeRunState) (appendCode : ErrorCode)
    (partId : Nat) (ek : EdgeKey) (flag : Bool) : ExecOutcome EMLI :=
  match updateEdgeAndWriteBack cfg st partId ek with
  | none => ⟨ErrorCode.E_STORAGE_QUERY_INVALID_DATA, [], true, none, flag⟩
  | some b => ⟨appendCode, [b], true, none, flag⟩

/-- UpdateEdgeNode::execute: lock the row identity of the requested edge
key, run the op closure (which refuses an edge-type mismatch with
KeyNotFound before everything else), and append the produced batch. -/
def UpdateEdgeNode_execute (cfg : EdgeExecCfg) (lockTable : List EMLI)
    (chain : ChainResult) (appendCode : ErrorCode) (partId : Nat) (ek : EdgeKey) :
    ExecOutcome EMLI :=
  if (cfg.spaceId, partId, ek.src, ek.edgeType, ek.ranking, ek.dst) ∈ lockTable then
    ⟨ErrorCode.E_STORAGE_QUERY_CONCURRENT_MODIFY, [], false,
     some (cfg.spaceId, partId, ek.src, ek.edgeType, ek.ranking, ek.dst), false⟩
  else if chain.code = ErrorCode.SUCCEEDED then
    if ek.edgeType = cfg.edgeType then
      match chain.resultStat with
      | .illegalData => ⟨ErrorCode.E_STORAGE_QUERY_INVALID_DATA, [], true, none, false⟩
      | .filterOut => ⟨ErrorCode.E_STORAGE_QUERY_FILTER_NOT_PASSED, [], true, none, false⟩
      | .normal =>
        let flag := chain.reader.isNone && cfg.insertable
        match edgeBranch cfg chain partId ek with
        | .error e => ⟨e, [], true, none, flag⟩
        | .ok st => runEdgeWriteBack cfg st appendCode partId ek flag
    else ⟨ErrorCode.E_STORAGE_KVSTORE_KEY_NOT_FOUND, [], true, none, false⟩
  else ⟨chain.code, [], true, none, false⟩

/-- UpdateResNode::execute: any code other than SUCCEEDED or the
informational filter status aborts without a result row; otherwise the
row `_inserted :: yields` is emitted (on the filtered-out path the
context still holds the old row) and the code is passed through. -/
def UpdateResNode_execute (code : ErrorCode) (insertFlag : Bool)
    (returnExps : List Expr) (ctx : Ctx) : ErrorCode × Option (List Value) :=
  if code ≠ ErrorCode.SUCCEEDED ∧ code ≠ ErrorCode.E_STORAGE_QUERY_FILTER_NOT_PASSED then
    (code, none)
  else
    (code, some (Value.bool insertFlag :: returnExps.map (fun e => evalExpr e ctx)))

/-- cpp2::PartitionResult: code, partition, optional leader hint. -/
structure PartitionResult where
  code : ErrorCode
  partId : Nat
  leader : Option Nat
deriving DecidableEq, Repr

/-- BaseProcessor::pushResultCode. -/
def pushResultCode (codes : List PartitionResult) (code : ErrorCode) (partId : Nat)
    (leader : Option Nat) : List PartitionResult :=
  if code = ErrorCode.SUCCEEDED then codes else codes ++ [⟨code, partId, leader⟩]

/-- BaseProcessor::handleLeaderChanged: look the current leader up and
attach it; a failed lookup pushes the lookup's error instead. -/
def handleLeaderChanged (leaderOf : Nat → Except ErrorCode Nat)
    (codes : List PartitionResult) (partId : Nat) : List PartitionResult :=
  match leaderOf partId with
  | .ok l => pushResultCode codes ErrorCode.E_LEADER_CHANGED partId (some l)
  | .error e => pushResultCode codes e partId none

/-- BaseProcessor::handleErrorCode. -/
def handleErrorCode (leaderOf : Nat → Except ErrorCode Nat)
    (codes : List PartitionResult) (code : ErrorCode) (partId : Nat) :
    List PartitionResult :=
  if code = ErrorCode.SUCCEEDED then codes
  else if code = ErrorCode.E_LEADER_CHANGED then handleLeaderChanged leaderOf codes partId
  else pushResultCode codes code partId none

/-- The per-partition loop of LookupProcessor::process: `rows` pairs each
requested partition with the result of `plan.go(partId)`; a failing
partition is recorded through handleErrorCode only on its first
failure. -/
def processLookupGo (leaderOf : Nat → Except ErrorCode Nat) :
    List (Nat × ErrorCode) → List Nat → List PartitionResult → List PartitionResult
  | [], _, codes => codes
  | (p, c) :: rest, failed, codes =>
    if c = ErrorCode.SUCCEEDED then processLookupGo leaderOf rest failed codes
    else if p ∈ failed then processLookupGo leaderOf rest failed codes
    else processLookupGo leaderOf rest (p :: failed) (handleErrorCode leaderOf codes c p)

/-- LookupProcessor::process, starting with empty failedParts and
result-code vector. -/
def LookupProcessor_process (leaderOf : Nat → Except ErrorCode Nat)
    (rows : List (Nat × ErrorCode)) : List PartitionResult :=
  processLookupGo leaderOf rows [] []

/-- The first failing result a partition reports in the row list. -/
def firstFail : List (Nat × ErrorCode) → Nat → Option ErrorCode
  | [], _ => none
  | (p, c) :: rest, q =>
    if p = q ∧ c ≠ ErrorCode.SUCCEEDED then some c else firstFail rest q

def batchOpKey : BatchOp → Key
  | .put k _ => k
  | .remove k => k

/-- Keys of index-maintenance operations: direct index entries and the
two operation-log key families. -/
def isIndexMaintKey : Key → Bool
  | .vertexIndex _ _ _ _ => true
  | .edgeIndex _ _ _ _ _ _ => true
  | .deleteOp _ => true
  | .modifyOp _ _ => true
  | _ => false

def isIndexMaintOp (op : BatchOp) : Bool := isIndexMaintKey (batchOpKey op)

/-- A direct (non-operation-log) index put/remove for the given index
id. -/
def isDirectVertexIndexOpFor (indexId : Int) (op : BatchOp) : Bool :=
  match batchOpKey op with
  | .vertexIndex _ iid _ _ => iid == indexId
  | _ => false

/-- Operation-log keys (the rebuild protocol's key families). -/
def isOpLogKey : Key → Bool
  | .deleteOp _ => true
  | .modifyOp _ _ => true
  | _ => false

/-- Every bound property equals the defaulted value of its schema column,
and that column justified the binding (a default exists or it is
nullable). This is the invariant checkPropsAndGetDefaultValue maintains
on the upsert insert path. -/
def PropsDefaulted (schema : Schema) (props : Props) : Prop :=
  ∀ n v, props.get n = some v →
    ∃ f, schema.field n = some f ∧ v = fieldDefault f ∧
      (f.defaultVal.isSome ∨ f.nullable = true)

/-! Concrete fixtures used by witnesses. -/

def envNormal : Env := ⟨fun _ _ => IndexState.normal⟩

def envRebuilding : Env := ⟨fun _ _ => IndexState.rebuilding⟩

def envLocked : Env := ⟨fun _ _ => IndexState.locked⟩

def tagCtx0 : TagContext := ⟨fun _ => [], fun _ => none⟩

def edgeCtx0 : EdgeContext := ⟨fun _ => [], fun _ => none⟩

def cfgT0 : TagExecCfg := ⟨1, 2, false, [], [], [], tagCtx0, envNormal⟩

def cfgE0 : EdgeExecCfg := ⟨1, 3, false, [], [], [], edgeCtx0, envNormal⟩

def chain0 : ChainResult := ⟨ErrorCode.SUCCEEDED, ResultStatus.normal, none, Key.deleteOp 0⟩

def chainFO : ChainResult := ⟨ErrorCode.SUCCEEDED, ResultStatus.filterOut, none, Key.deleteOp 0⟩

def ek0 : EdgeKey := ⟨"s", 3, 0, "d"⟩

def schemaA : Schema := ⟨[⟨"c", true, none, fun _ => true⟩], none⟩

def edgeCtx1 : EdgeContext :=
  ⟨fun n => if n = 3 then [schemaA] else [],
   fun t => if t.natAbs = 3 then some "e1" else none⟩

def tagCtx1 : TagContext :=
  ⟨fun t => if t = 2 then [schemaA] else [],
   fun t => if t = 2 then some "person" else none⟩

def cfgT1 : TagExecCfg := ⟨1, 2, true, [], [], [], tagCtx1, envNormal⟩

def i1 : IndexItem := ⟨10, 2, ["c"]⟩

def rdOld : Reader := fun n => if n = "c" then some (Value.int 1) else none

def chainU : ChainResult :=
  ⟨ErrorCode.SUCCEEDED, ResultStatus.normal, some rdOld, Key.vertex 0 "v" 2⟩

def cfgT2 : TagExecCfg :=
  ⟨1, 2, false, [i1], [⟨"c", some (Expr.const (Value.int 7))⟩], [], tagCtx1, envRebuilding⟩

def stT2 : TagRunState :=
  ⟨schemaA, "person", [("c", Value.int 1)],
   buildCtx [("c", Value.int 1)] ((Ctx.empty.set kVid (Value.str "v")).set kTag (Value.int 2)),
   true, some rdOld, Key.vertex 0 "v" 2⟩

def bC3 : Batch :=
  [BatchOp.put (Key.deleteOp 0) (BVal.keyV (Key.vertexIndex 0 10 "v" [Value.int 1])),
   BatchOp.put (Key.modifyOp 0 (Key.vertexIndex 0 10 "v" [Value.int 7])) (BVal.idxV none),
   BatchOp.put (Key.vertex 0 "v" 2) (BVal.rowV [("c", Value.int 7)])]

def cfgT3 : TagExecCfg :=
  ⟨1, 2, false, [i1], [⟨"c", some (Expr.const (Value.int 7))⟩], [], tagCtx1, envLocked⟩

def leaderOfW : Nat → Except ErrorCode Nat := fun _ => Except.ok 9

def rowsW : List (Nat × ErrorCode) :=
  [(0, ErrorCode.E_UNKNOWN), (0, ErrorCode.E_INDEX_NOT_FOUND), (1, ErrorCode.SUCCEEDED)]

def stT1 : TagRunState :=
  ⟨schemaA, "person", [("c", Value.null)],
   buildCtx [("c", Value.null)]
     ((Ctx.empty.set kVid (Value.str "v")).set kTag (Value.int 2)),
   false, none, Key.vertex 0 "v" 2⟩

/-! Basic lemmas about the property map and context. -/

theorem find_filter_ne (p : Props) (k m : String) (h : ¬ m = k) :
    (p.filter (fun e => e.1 != k)).find? (fun e => e.1 == m) =
      p.find? (fun e => e.1 == m) := by
  have hkm : ¬ k = m := fun hh => h hh.symm
  induction p with
  | nil => rfl
  | cons e rest ih =>
    by_cases he : e.1 = k
    · have h2 : ¬ e.1 = m := by rw [he]; exact hkm
      simp [List.filter_cons, List.find?_cons, he, h2, hkm, ih]
    · by_cases hem : e.1 = m
      · simp [List.filter_cons, List.find?_cons, he, hem, h, hkm]
      · simp [List.filter_cons, List.find?_cons, he, hem, h, hkm, ih]

theorem Props.get_set (p : Props) (k m : String) (v : Value) :
    (p.set k v).get m = if m = k then some v else p.get m := by
  unfold Props.set Props.get
  by_cases h : m = k
  · subst h
    simp [List.find?_cons]
  · have h2 : ¬ k = m := fun hh => h hh.symm
    simp [List.find?_cons, h2, h, find_filter_ne p k m h]

theorem Ctx.set_get (c : Ctx) (k m : String) (v : Value) :
    (c.set k v) m = if m = k then v else c m := rfl

/-- C6: an update whose row-identity lock key is already held fails
immediately with ConcurrentModify, logs the conflicting key, performs no
read and no append, and so leaves the store unchanged — for vertices and
for edges. -/
theorem claim_C6 (cfg : TagExecCfg) (lockT : List VMLI) (chain : ChainResult)
    (apc : ErrorCode) (partId : Nat) (vId : String)
    (cfgE : EdgeExecCfg) (lockE : List EMLI) (chainE : ChainResult) (apcE : ErrorCode)
    (partE : Nat) (ek : EdgeKey) :
    ((cfg.spaceId, partId, cfg.tagId, vId) ∈ lockT →
      UpdateTagNode_execute cfg lockT chain apc partId vId =
        ⟨ErrorCode.E_STORAGE_QUERY_CONCURRENT_MODIFY, [], false,
         some (cfg.spaceId, partId, cfg.tagId, vId), false⟩) ∧
    ((cfgE.spaceId, partE, ek.src, ek.edgeType, ek.ranking, ek.dst) ∈ lockE →
      UpdateEdgeNode_execute cfgE lockE chainE apcE partE ek =
        ⟨ErrorCode.E_STORAGE_QUERY_CONCURRENT_MODIFY, [], false,
         some (cfgE.spaceId, partE, ek.src, ek.edgeType, ek.ranking, ek.dst), false⟩) := by
  constructor
  · intro h
    simp [UpdateTagNode_execute, h]
  · intro h
    simp [UpdateEdgeNode_execute, h]

theorem claim_C6_witness :
    (((1 : Int), (0 : Nat), (2 : Int), "v") ∈ [((1 : Int), (0 : Nat), (2 : Int), "v")] →
      UpdateTagNode_execute cfgT0 [(1, 0, 2, "v")] chain0 ErrorCode.SUCCEEDED 0 "v" =
        ⟨ErrorCode.E_STORAGE_QUERY_CONCURRENT_MODIFY, [], false,
         some (1, 0, 2, "v"), false⟩) ∧
    (((1 : Int), (0 : Nat), "s", (3 : Int), (0 : Int), "d") ∈
        [((1 : Int), (0 : Nat), "s", (3 : Int), (0 : Int), "d")] →
      UpdateEdgeNode_execute cfgE0 [(1, 0, "s", 3, 0, "d")] chain0 ErrorCode.SUCCEEDED 0 ek0 =
        ⟨ErrorCode.E_STORAGE_QUERY_CONCURRENT_MODIFY, [], false,
         some (1, 0, "s", 3, 0, "d"), false⟩) :=
  claim_C6 cfgT0 [(1, 0, 2, "v")] chain0 ErrorCode.SUCCEEDED 0 "v"
    cfgE0 [(1, 0, "s", 3, 0, "d")] chain0 ErrorCode.SUCCEEDED 0 ek0

/-- C8: an edge update whose requested edge key carries an edge type that
differs from the executor's configured (sign-encoded) edge type returns
KeyNotFound and commits no write. -/
theorem claim_C8 (cfg : EdgeExecCfg) (lockT : List EMLI) (chain : ChainResult)
    (apc : ErrorCode) (partId : Nat) (ek : EdgeKey)
    (hlock : (cfg.spaceId, partId, ek.src, ek.edgeType, ek.ranking, ek.dst) ∉ lockT)
    (hcode : chain.code = ErrorCode.SUCCEEDED)
    (hne : ek.edgeType ≠ cfg.edgeType) :
    (UpdateEdgeNode_execute cfg lockT chain apc partId ek).code =
      ErrorCode.E_STORAGE_KVSTORE_KEY_NOT_FOUND ∧
    (UpdateEdgeNode_execute cfg lockT chain apc partId ek).appends = [] := by
  constructor <;> simp [UpdateEdgeNode_execute, hlock, hcode, hne]

theorem claim_C8_witness :
    (UpdateEdgeNode_execute cfgE0 [] chain0 ErrorCode.SUCCEEDED 0 ⟨"s", 4, 0, "d"⟩).code =
      ErrorCode.E_STORAGE_KVSTORE_KEY_NOT_FOUND ∧
    (UpdateEdgeNode_execute cfgE0 [] chain0 ErrorCode.SUCCEEDED 0 ⟨"s", 4, 0, "d"⟩).appends =
      [] :=
  claim_C8 cfgE0 [] chain0 ErrorCode.SUCCEEDED 0 ⟨"s", 4, 0, "d"⟩ (by decide) rfl (by decide)

/-- C7: when the filter evaluates to false on the existing row, no batch
is committed, the informational FilteredOut status is returned, and the
result node still emits the yielded columns evaluated from the old-row
context, with _inserted = false. -/
theorem claim_C7 (cfg : TagExecCfg) (lockT : List VMLI) (chain : ChainResult)
    (apc : ErrorCode) (partId : Nat) (vId : String) (returnExps : List Expr) (ctx : Ctx)
    (hlock : (cfg.spaceId, partId, cfg.tagId, vId) ∉ lockT)
    (hcode : chain.code = ErrorCode.SUCCEEDED)
    (hstat : chain.resultStat = ResultStatus.filterOut) :
    (UpdateTagNode_execute cfg lockT chain apc partId vId).code =
      ErrorCode.E_STORAGE_QUERY_FILTER_NOT_PASSED ∧
    (UpdateTagNode_execute cfg lockT chain apc partId vId).appends = [] ∧
    (UpdateTagNode_execute cfg lockT chain apc partId vId).insertFlag = false ∧
    UpdateResNode_execute (UpdateTagNode_execute cfg lockT chain apc partId vId).code
        (UpdateTagNode_execute cfg lockT chain apc partId vId).insertFlag returnExps ctx =
      (ErrorCode.E_STORAGE_QUERY_FILTER_NOT_PASSED,
       some (Value.bool false :: returnExps.map (fun e => evalExpr e ctx))) := by
  have hout : UpdateTagNode_execute cfg lockT chain apc partId vId =
      ⟨ErrorCode.E_STORAGE_QUERY_FILTER_NOT_PASSED, [], true, none, false⟩ := by
    simp [UpdateTagNode_execute, hlock, hcode, hstat]
  refine ⟨by rw [hout], by rw [hout], by rw [hout], ?_⟩
  rw [hout]
  simp [UpdateResNode_execute]

theorem claim_C7_witness :
    (UpdateTagNode_execute cfgT0 [] chainFO ErrorCode.SUCCEEDED 0 "v").code =
      ErrorCode.E_STORAGE_QUERY_FILTER_NOT_PASSED ∧
    (UpdateTagNode_execute cfgT0 [] chainFO ErrorCode.SUCCEEDED 0 "v").appends = [] ∧
    (UpdateTagNode_execute cfgT0 [] chainFO ErrorCode.SUCCEEDED 0 "v").insertFlag = false ∧
    UpdateResNode_execute (UpdateTagNode_execute cfgT0 [] chainFO ErrorCode.SUCCEEDED 0 "v").code
        (UpdateTagNode_execute cfgT0 [] chainFO ErrorCode.SUCCEEDED 0 "v").insertFlag
        [Expr.prop "age"] (Ctx.empty.set "age" (Value.int 30)) =
      (ErrorCode.E_STORAGE_QUERY_FILTER_NOT_PASSED,
       some (Value.bool false ::
         [Expr.prop "age"].map
           (fun e => evalExpr e (Ctx.empty.set "age" (Value.int 30))))) :=
  claim_C7 cfgT0 [] chainFO ErrorCode.SUCCEEDED 0 "v" [Expr.prop "age"]
    (Ctx.empty.set "age" (Value.int 30)) (by decide) rfl rfl

/-- C4: update assignments are applied left to right and each assignment
updates the evaluation context seen by the later ones; in particular
`set x = a, y = x + 1` with a = 5 yields x = 5 and y = 6 regardless of
the prior x. -/
theorem claim_C4 (props : Props) (ctx : Ctx) (n1 n2 : String) (e1 e2 : Expr) :
    (applyUpdates [⟨n1, some e1⟩, ⟨n2, some e2⟩] props ctx =
      some ((props.set n1 (evalExpr e1 ctx)).set n2
              (evalExpr e2 (ctx.set n1 (evalExpr e1 ctx))),
            (ctx.set n1 (evalExpr e1 ctx)).set n2
              (evalExpr e2 (ctx.set n1 (evalExpr e1 ctx))))) ∧
    (ctx "a" = Value.int 5 →
      ∃ props2 ctx2,
        applyUpdates [⟨"x", some (Expr.prop "a")⟩,
                      ⟨"y", some (Expr.add (Expr.prop "x") (Expr.const (Value.int 1)))⟩]
            props ctx = some (props2, ctx2) ∧
        props2.get "x" = some (Value.int 5) ∧ props2.get "y" = some (Value.int 6)) := by
  constructor
  · rfl
  · intro h
    refine ⟨_, _, rfl, ?_, ?_⟩
    · rw [Props.get_set]
      have hxy : ¬ "x" = "y" := by decide
      rw [if_neg hxy, Props.get_set, if_pos rfl]
      simp [evalExpr, h]
    · rw [Props.get_set, if_pos rfl]
      simp [evalExpr, Ctx.set, h]

theorem claim_C4_witness :
    (applyUpdates [⟨"p", some (Expr.const (Value.int 7))⟩,
                   ⟨"q", some (Expr.prop "p")⟩] [] (Ctx.empty.set "a" (Value.int 5)) =
      some (((Props.set [] "p"
                (evalExpr (Expr.const (Value.int 7)) (Ctx.empty.set "a" (Value.int 5)))).set "q"
               (evalExpr (Expr.prop "p")
                 ((Ctx.empty.set "a" (Value.int 5)).set "p"
                   (evalExpr (Expr.const (Value.int 7)) (Ctx.empty.set "a" (Value.int 5)))))),
            (((Ctx.empty.set "a" (Value.int 5)).set "p"
                (evalExpr (Expr.const (Value.int 7)) (Ctx.empty.set "a" (Value.int 5)))).set "q"
               (evalExpr (Expr.prop "p")
                 ((Ctx.empty.set "a" (Value.int 5)).set "p"
                   (evalExpr (Expr.const (Value.int 7))
                     (Ctx.empty.set "a" (Value.int 5)))))))) ∧
    ((Ctx.empty.set "a" (Value.int 5)) "a" = Value.int 5 →
      ∃ props2 ctx2,
        applyUpdates [⟨"x", some (Expr.prop "a")⟩,
                      ⟨"y", some (Expr.add (Expr.prop "x") (Expr.const (Value.int 1)))⟩]
            [] (Ctx.empty.set "a" (Value.int 5)) = some (props2, ctx2) ∧
        props2.get "x" = some (Value.int 5) ∧ props2.get "y" = some (Value.int 6)) :=
  claim_C4 [] (Ctx.empty.set "a" (Value.int 5)) "p" "q" (Expr.const (Value.int 7))
    (Expr.prop "p")

/-- C10: the latest edge schema is resolved under the absolute value of
the edge type — so +type and -type resolve to the same schema — while
the edge name is resolved under the signed type, and a miss of either
lookup fails with SchemaEdgeNotFound; collEdgeProp collects and encodes
under exactly that schema. -/
theorem claim_C10 (ec : EdgeContext) (e : Int) :
    (∀ s n s2 n2, getLatestEdgeSchemaAndName ec e = Except.ok (s, n) →
        getLatestEdgeSchemaAndName ec (-e) = Except.ok (s2, n2) → s = s2) ∧
    ((ec.schemas e.natAbs).getLast? = none →
        getLatestEdgeSchemaAndName ec e =
          Except.error ErrorCode.E_STORAGE_SCHEMA_EDGE_NOT_FOUND) ∧
    (ec.edgeNames e = none →
        getLatestEdgeSchemaAndName ec e =
          Except.error ErrorCode.E_STORAGE_SCHEMA_EDGE_NOT_FOUND) ∧
    (∀ s n, getLatestEdgeSchemaAndName ec e = Except.ok (s, n) →
        (ec.schemas e.natAbs).getLast? = some s ∧ ec.edgeNames e = some n) ∧
    (∀ (cfg : EdgeExecCfg) (r : Reader) (k : Key) (ek : EdgeKey) (st : EdgeRunState),
        cfg.edgeContext = ec → cfg.edgeType = e →
        collEdgeProp cfg r k ek = Except.ok st →
        getLatestEdgeSchemaAndName ec e = Except.ok (st.schema, st.edgeName)) := by
  have habs : (-e).natAbs = e.natAbs := Int.natAbs_neg e
  refine ⟨?_, ?_, ?_, ?_, ?_⟩
  · intro s n s2 n2 h1 h2
    unfold getLatestEdgeSchemaAndName at h1 h2
    rw [habs] at h2
    cases hL : (ec.schemas e.natAbs).getLast? with
    | none => rw [hL] at h1; exact absurd h1 (by simp)
    | some sc =>
      rw [hL] at h1 h2
      cases hN : ec.edgeNames e with
      | none => rw [hN] at h1; exact absurd h1 (by simp)
      | some nm =>
        rw [hN] at h1
        cases hN2 : ec.edgeNames (-e) with
        | none => rw [hN2] at h2; exact absurd h2 (by simp)
        | some nm2 =>
          rw [hN2] at h2
          have e1 : sc = s := congrArg Prod.fst (Except.ok.inj h1)
          have e2 : sc = s2 := congrArg Prod.fst (Except.ok.inj h2)
          rw [← e1, ← e2]
  · intro h
    unfold getLatestEdgeSchemaAndName
    rw [h]
  · intro h
    unfold getLatestEdgeSchemaAndName
    cases hL : (ec.schemas e.natAbs).getLast? with
    | none => rfl
    | some sc => rw [h]
  · intro s n h
    unfold getLatestEdgeSchemaAndName at h
    cases hL : (ec.schemas e.natAbs).getLast? with
    | none => rw [hL] at h; exact absurd h (by simp)
    | some sc =>
      rw [hL] at h
      cases hN : ec.edgeNames e with
      | none => rw [hN] at h; exact absurd h (by simp)
      | some nm =>
        rw [hN] at h
        have hinj := Except.ok.inj h
        have hs : sc = s := congrArg Prod.fst hinj
        have hn : nm = n := congrArg Prod.snd hinj
        exact ⟨by rw [hs], by rw [hn]⟩
  · intro cfg r k ek st hec het h
    unfold collEdgeProp at h
    rw [hec, het] at h
    cases hG : getLatestEdgeSchemaAndName ec e with
    | error er => rw [hG] at h; exact absurd h (by simp)
    | ok pr =>
      obtain ⟨schema, name⟩ := pr
      rw [hG] at h
      simp only at h
      cases hC : collPropsGo ErrorCode.E_STORAGE_QUERY_READ_EDGE_PROP_FAILED r
          schema.fields [] with
      | error er => rw [hC] at h; exact absurd h (by simp)
      | ok props =>
        rw [hC] at h
        have hst := Except.ok.inj h
        subst hst
        rfl

theorem claim_C10_witness :
    schemaA = schemaA ∧
    getLatestEdgeSchemaAndName edgeCtx1 7 =
      Except.error ErrorCode.E_STORAGE_SCHEMA_EDGE_NOT_FOUND ∧
    ((edgeCtx1.schemas (3 : Int).natAbs).getLast? = some schemaA ∧
      edgeCtx1.edgeNames 3 = some "e1") :=
  ⟨(claim_C10 edgeCtx1 3).1 schemaA "e1" schemaA "e1" (by rfl) (by rfl),
   (claim_C10 edgeCtx1 7).2.1 (by rfl),
   (claim_C10 edgeCtx1 3).2.2.2.1 schemaA "e1" (by rfl)⟩

/-! Lemmas toward C1: every committed batch is exactly the index
maintenance operations followed by the primary-row put, in one append. -/

theorem tagIndexStep1_maint (env : Env) (spaceId : Int) (st : TagRunState) (partId : Nat)
    (vId : String) (i : IndexItem) (ops : Batch)
    (h : tagIndexStep1 env spaceId st partId vId i = some ops) :
    ∀ op ∈ ops, isIndexMaintOp op = true := by
  intro op hop
  unfold tagIndexStep1 at h
  by_cases hv : st.valNonempty = true
  · rw [if_pos hv] at h
    cases hr : st.reader with
    | none => rw [hr] at h; exact absurd h (by simp)
    | some r =>
      rw [hr] at h
      simp only at h
      cases hk : vertexIndexKey partId i vId r with
      | none =>
        rw [hk] at h
        have := Option.some.inj h
        subst this
        exact absurd hop (by simp)
      | some oi =>
        rw [hk] at h
        simp only at h
        by_cases hreb : checkRebuilding (env.indexState spaceId partId) = true
        · rw [if_pos hreb] at h
          have := Option.some.inj h
          subst this
          simp at hop
          subst hop
          rfl
        · rw [if_neg hreb] at h
          by_cases hlk : checkIndexLocked (env.indexState spaceId partId) = true
          · rw [if_pos hlk] at h; exact absurd h (by simp)
          · rw [if_neg hlk] at h
            have := Option.some.inj h
            subst this
            simp at hop
            subst hop
            unfold vertexIndexKey at hk
            cases hcv : collectIndexValues r i.fields with
            | none => rw [hcv] at hk; exact absurd hk (by simp)
            | some vs =>
              rw [hcv] at hk
              simp at hk
              subst hk
              rfl
  · rw [if_neg hv] at h
    have := Option.some.inj h
    subst this
    exact absurd hop (by simp)

theorem tagIndexStep2_maint (env : Env) (spaceId : Int) (schema : Schema) (partId : Nat)
    (vId : String) (nReader : Reader) (i : IndexItem) (ops1 ops : Batch)
    (h : tagIndexStep2 env spaceId schema partId vId nReader i ops1 = some ops)
    (h1 : ∀ op ∈ ops1, isIndexMaintOp op = true) :
    ∀ op ∈ ops, isIndexMaintOp op = true := by
  intro op hop
  unfold tagIndexStep2 at h
  cases hk : vertexIndexKey partId i vId nReader with
  | none =>
    rw [hk] at h
    have := Option.some.inj h
    subst this
    exact h1 op hop
  | some ni =>
    rw [hk] at h
    simp only at h
    by_cases hreb : checkRebuilding (env.indexState spaceId partId) = true
    · rw [if_pos hreb] at h
      have := Option.some.inj h
      subst this
      rcases List.mem_append.mp hop with hin | hin
      · exact h1 op hin
      · simp at hin
        subst hin
        rfl
    · rw [if_neg hreb] at h
      by_cases hlk : checkIndexLocked (env.indexState spaceId partId) = true
      · rw [if_pos hlk] at h; exact absurd h (by simp)
      · rw [if_neg hlk] at h
        have := Option.some.inj h
        subst this
        rcases List.mem_append.mp hop with hin | hin
        · exact h1 op hin
        · simp at hin
          subst hin
          unfold vertexIndexKey at hk
          cases hcv : collectIndexValues nReader i.fields with
          | none => rw [hcv] at hk; exact absurd hk (by simp)
          | some vs =>
            rw [hcv] at hk
            simp at hk
            subst hk
            rfl

theorem tagIndexOpsOne_maint (env : Env) (spaceId : Int) (tagId : Int) (st : TagRunState)
    (partId : Nat) (vId : String) (nReader : Reader) (i : IndexItem) (ops : Batch)
    (h : tagIndexOpsOne env spaceId tagId st partId vId nReader i = some ops) :
    ∀ op ∈ ops, isIndexMaintOp op = true := by
  unfold tagIndexOpsOne at h
  by_cases hm : tagId = i.schemaId
  · rw [if_pos hm] at h
    cases h1 : tagIndexStep1 env spaceId st partId vId i with
    | none => rw [h1] at h; exact absurd h (by simp)
    | some ops1 =>
      rw [h1] at h
      exact tagIndexStep2_maint env spaceId st.schema partId vId nReader i ops1 ops h
        (tagIndexStep1_maint env spaceId st partId vId i ops1 h1)
  · rw [if_neg hm] at h
    have := Option.some.inj h
    subst this
    intro op hop
    exact absurd hop (by simp)

theorem tagIndexOpsAll_maint (env : Env) (spaceId : Int) (tagId : Int) (st : TagRunState)
    (partId : Nat) (vId : String) (nReader : Reader) (il : List IndexItem) (ops : Batch)
    (h : tagIndexOpsAll env spaceId tagId st partId vId nReader il = some ops) :
    ∀ op ∈ ops, isIndexMaintOp op = true := by
  induction il generalizing ops with
  | nil =>
    unfold tagIndexOpsAll at h
    have := Option.some.inj h
    subst this
    intro op hop
    exact absurd hop (by simp)
  | cons i rest ih =>
    unfold tagIndexOpsAll at h
    cases h1 : tagIndexOpsOne env spaceId tagId st partId vId nReader i with
    | none => rw [h1] at h; exact absurd h (by simp)
    | some ops1 =>
      rw [h1] at h
      cases h2 : tagIndexOpsAll env spaceId tagId st partId vId nReader rest with
      | none => rw [h2] at h; exact absurd h (by simp)
      | some ops2 =>
        rw [h2] at h
        have := Option.some.inj h
        subst this
        intro op hop
        rcases List.mem_append.mp hop with hin | hin
        · exact tagIndexOpsOne_maint env spaceId tagId st partId vId nReader i ops1 h1 op hin
        · exact ih ops2 h2 op hin

theorem updateTagAndWriteBack_inv (cfg : TagExecCfg) (st : TagRunState) (partId : Nat)
    (vId : String) (b : Batch)
    (h : updateTagAndWriteBack cfg st partId vId = some b) :
    ∃ props2 ctx2 row ops,
      applyUpdates cfg.updatedProps st.props st.ctx = some (props2, ctx2) ∧
      writeRow st.schema props2 = some row ∧
      tagIndexOpsAll cfg.env cfg.spaceId cfg.tagId st partId vId (rowReader row)
        cfg.indexes = some ops ∧
      b = ops ++ [BatchOp.put st.key (BVal.rowV row)] := by
  unfold updateTagAndWriteBack at h
  cases hA : applyUpdates cfg.updatedProps st.props st.ctx with
  | none => rw [hA] at h; exact absurd h (by simp)
  | some pc =>
    obtain ⟨props2, ctx2⟩ := pc
    rw [hA] at h
    simp only at h
    cases hW : writeRow st.schema props2 with
    | none => rw [hW] at h; exact absurd h (by simp)
    | some row =>
      rw [hW] at h
      simp only at h
      cases hO : tagIndexOpsAll cfg.env cfg.spaceId cfg.tagId st partId vId
          (rowReader row) cfg.indexes with
      | none => rw [hO] at h; exact absurd h (by simp)
      | some ops =>
        rw [hO] at h
        exact ⟨props2, ctx2, row, ops, rfl, hW, hO, (Option.some.inj h).symm⟩

theorem runTagWriteBack_appends (cfg : TagExecCfg) (st : TagRunState) (apc : ErrorCode)
    (partId : Nat) (vId : String) (flag : Bool) :
    (runTagWriteBack cfg st apc partId vId flag).appends = [] ∨
    ∃ b, updateTagAndWriteBack cfg st partId vId = some b ∧
      (runTagWriteBack cfg st apc partId vId flag).appends = [b] := by
  unfold runTagWriteBack
  cases h : updateTagAndWriteBack cfg st partId vId with
  | none => left; rfl
  | some b => right; exact ⟨b, rfl, rfl⟩

theorem tagExec_appends_shape (cfg : TagExecCfg) (lockT : List VMLI) (chain : ChainResult)
    (apc : ErrorCode) (partId : Nat) (vId : String) :
    (UpdateTagNode_execute cfg lockT chain apc partId vId).appends = [] ∨
    ∃ st b, tagBranch cfg chain partId vId = Except.ok st ∧
      updateTagAndWriteBack cfg st partId vId = some b ∧
      (UpdateTagNode_execute cfg lockT chain apc partId vId).appends = [b] := by
  unfold UpdateTagNode_execute
  by_cases hl : (cfg.spaceId, partId, cfg.tagId, vId) ∈ lockT
  · rw [if_pos hl]
    left
    rfl
  · rw [if_neg hl]
    by_cases hc : chain.code = ErrorCode.SUCCEEDED
    · rw [if_pos hc]
      cases hstat : chain.resultStat with
      | illegalData => left; rfl
      | filterOut => left; rfl
      | normal =>
        cases hb : tagBranch cfg chain partId vId with
        | error e => left; rfl
        | ok st =>
          rcases runTagWriteBack_appends cfg st apc partId vId
              (chain.reader.isNone && cfg.insertable) with h | ⟨b, h1, h2⟩
          · left; exact h
          · right; exact ⟨st, b, rfl, h1, h2⟩
    · rw [if_neg hc]
      left
      rfl

theorem edgeIndexStep1_maint (env : Env) (spaceId : Int) (st : EdgeRunState) (partId : Nat)
    (ek : EdgeKey) (i : IndexItem) (ops : Batch)
    (h : edgeIndexStep1 env spaceId st partId ek i = some ops) :
    ∀ op ∈ ops, isIndexMaintOp op = true := by
  intro op hop
  unfold edgeIndexStep1 at h
  by_cases hv : st.valNonempty = true
  · rw [if_pos hv] at h
    cases hr : st.reader with
    | none => rw [hr] at h; exact absurd h (by simp)
    | some r =>
      rw [hr] at h
      simp only at h
      cases hk : edgeIndexKey partId i ek.src ek.ranking ek.dst r with
      | none =>
        rw [hk] at h
        have := Option.some.inj h
        subst this
        exact absurd hop (by simp)
      | some oi =>
        rw [hk] at h
        simp only at h
        by_cases hreb : checkRebuilding (env.indexState spaceId partId) = true
        · rw [if_pos hreb] at h
          have := Option.some.inj h
          subst this
          simp at hop
          subst hop
          rfl
        · rw [if_neg hreb] at h
          by_cases hlk : checkIndexLocked (env.indexState spaceId partId) = true
          · rw [if_pos hlk] at h; exact absurd h (by simp)
          · rw [if_neg hlk] at h
            have := Option.some.inj h
            subst this
            simp at hop
            subst hop
            unfold edgeIndexKey at hk
            cases hcv : collectIndexValues r i.fields with
            | none => rw [hcv] at hk; exact absurd hk (by simp)
            | some vs =>
              rw [hcv] at hk
              simp at hk
              subst hk
              rfl
  · rw [if_neg hv] at h
    have := Option.some.inj h
    subst this
    exact absurd hop (by simp)

theorem edgeIndexStep2_maint (env : Env) (spaceId : Int) (schema : Schema) (partId : Nat)
    (ek : EdgeKey) (nReader : Reader) (i : IndexItem) (ops1 ops : Batch)
    (h : edgeIndexStep2 env spaceId schema partId ek nReader i ops1 = some ops)
    (h1 : ∀ op ∈ ops1, isIndexMaintOp op = true) :
    ∀ op ∈ ops, isIndexMaintOp op = true := by
  intro op hop
  unfold edgeIndexStep2 at h
  cases hk : edgeIndexKey partId i ek.src ek.ranking ek.dst nReader with
  | none =>
    rw [hk] at h
    have := Option.some.inj h
    subst this
    exact h1 op hop
  | some ni =>
    rw [hk] at h
    simp only at h
    by_cases hreb : checkRebuilding (env.indexState spaceId partId) = true
    · rw [if_pos hreb] at h
      have := Option.some.inj h
      subst this
      rcases List.mem_append.mp hop with hin | hin
      · exact h1 op hin
      · simp at hin
        subst hin
        rfl
    · rw [if_neg hreb] at h
      by_cases hlk : checkIndexLocked (env.indexState spaceId partId) = true
      · rw [if_pos hlk] at h; exact absurd h (by simp)
      · rw [if_neg hlk] at h
        have := Option.some.inj h
        subst this
        rcases List.mem_append.mp hop with hin | hin
        · exact h1 op hin
        · simp at hin
          subst hin
          unfold edgeIndexKey at hk
          cases hcv : collectIndexValues nReader i.fields with
          | none => rw [hcv] at hk; exact absurd hk (by simp)
          | some vs =>
            rw [hcv] at hk
            simp at hk
            subst hk
            rfl

theorem edgeIndexOpsOne_maint (env : Env) (spaceId : Int) (edgeType : Int)
    (st : EdgeRunState) (partId : Nat) (ek : EdgeKey) (nReader : Reader) (i : IndexItem)
    (ops : Batch)
    (h : edgeIndexOpsOne env spaceId edgeType st partId ek nReader i = some ops) :
    ∀ op ∈ ops, isIndexMaintOp op = true := by
  unfold edgeIndexOpsOne at h
  by_cases hm : edgeType = i.schemaId
  · rw [if_pos hm] at h
    cases h1 : edgeIndexStep1 env spaceId st partId ek i with
    | none => rw [h1] at h; exact absurd h (by simp)
    | some ops1 =>
      rw [h1] at h
      exact edgeIndexStep2_maint env spaceId st.schema partId ek nReader i ops1 ops h
        (edgeIndexStep1_maint env spaceId st partId ek i ops1 h1)
  · rw [if_neg hm] at h
    have := Option.some.inj h
    subst this
    intro op hop
    exact absurd hop (by simp)

theorem edgeIndexOpsAll_maint (env : Env) (spaceId : Int) (edgeType : Int)
    (st : EdgeRunState) (partId : Nat) (ek : EdgeKey) (nReader : Reader)
    (il : List IndexItem) (ops : Batch)
    (h : edgeIndexOpsAll env spaceId edgeType st partId ek nReader il = some ops) :
    ∀ op ∈ ops, isIndexMaintOp op = true := by
  induction il generalizing ops with
  | nil =>
    unfold edgeIndexOpsAll at h
    have := Option.some.inj h
    subst this
    intro op hop
    exact absurd hop (by simp)
  | cons i rest ih =>
    unfold edgeIndexOpsAll at h
    cases h1 : edgeIndexOpsOne env spaceId edgeType st partId ek nReader i with
    | none => rw [h1] at h; exact absurd h (by simp)
    | some ops1 =>
      rw [h1] at h
      cases h2 : edgeIndexOpsAll env spaceId edgeType st partId ek nReader rest with
      | none => rw [h2] at h; exact absurd h (by simp)
      | some ops2 =>
        rw [h2] at h
        have := Option.some.inj h
        subst this
        intro op hop
        rcases List.mem_append.mp hop with hin | hin
        · exact edgeIndexOpsOne_maint env spaceId edgeType st partId ek nReader i ops1 h1
            op hin
        · exact ih ops2 h2 op hin

theorem updateEdgeAndWriteBack_inv (cfg : EdgeExecCfg) (st : EdgeRunState) (partId : Nat)
    (ek : EdgeKey) (b : Batch)
    (h : updateEdgeAndWriteBack cfg st partId ek = some b) :
    ∃ props2 ctx2 row ops,
      applyUpdates cfg.updatedProps st.props st.ctx = some (props2, ctx2) ∧
      writeRow st.schema props2 = some row ∧
      edgeIndexOpsAll cfg.env cfg.spaceId cfg.edgeType st partId ek (rowReader row)
        cfg.indexes = some ops ∧
      b = ops ++ [BatchOp.put st.key (BVal.rowV row)] := by
  unfold updateEdgeAndWriteBack at h
  cases hA : applyUpdates cfg.updatedProps st.props st.ctx with
  | none => rw [hA] at h; exact absurd h (by simp)
  | some pc =>
    obtain ⟨props2, ctx2⟩ := pc
    rw [hA] at h
    simp only at h
    cases hW : writeRow st.schema props2 with
    | none => rw [hW] at h; exact absurd h (by simp)
    | some row =>
      rw [hW] at h
      simp only at h
      cases hO : edgeIndexOpsAll cfg.env cfg.spaceId cfg.edgeType st partId ek
          (rowReader row) cfg.indexes with
      | none => rw [hO] at h; exact absurd h (by simp)
      | some ops =>
        rw [hO] at h
        exact ⟨props2, ctx2, row, ops, rfl, hW, hO, (Option.some.inj h).symm⟩

theorem runEdgeWriteBack_appends (cfg : EdgeExecCfg) (st : EdgeRunState) (apc : ErrorCode)
    (partId : Nat) (ek : EdgeKey) (flag : Bool) :
    (runEdgeWriteBack cfg st apc partId ek flag).appends = [] ∨
    ∃ b, updateEdgeAndWriteBack cfg st partId ek = some b ∧
      (runEdgeWriteBack cfg st apc partId ek flag).appends = [b] := by
  unfold runEdgeWriteBack
  cases h : updateEdgeAndWriteBack cfg st partId ek with
  | none => left; rfl
  | some b => right; exact ⟨b, rfl, rfl⟩

theorem edgeExec_appends_shape (cfg : EdgeExecCfg) (lockT : List EMLI)
    (chain : ChainResult) (apc : ErrorCode) (partId : Nat) (ek : EdgeKey) :
    (UpdateEdgeNode_execute cfg lockT chain apc partId ek).appends = [] ∨
    ∃ st b, edgeBranch cfg chain partId ek = Except.ok st ∧
      updateEdgeAndWriteBack cfg st partId ek = some b ∧
      (UpdateEdgeNode_execute cfg lockT chain apc partId ek).appends = [b] := by
  unfold UpdateEdgeNode_execute
  by_cases hl : (cfg.spaceId, partId, ek.src, ek.edgeType, ek.ranking, ek.dst) ∈ lockT
  · rw [if_pos hl]
    left
    rfl
  · rw [if_neg hl]
    by_cases hc : chain.code = ErrorCode.SUCCEEDED
    · rw [if_pos hc]
      by_cases ht : ek.edgeType = cfg.edgeType
      · rw [if_pos ht]
        cases hstat : chain.resultStat with
        | illegalData => left; rfl
        | filterOut => left; rfl
        | normal =>
          cases hb : edgeBranch cfg chain partId ek with
          | error e => left; rfl
          | ok st =>
            rcases runEdgeWriteBack_appends cfg st apc partId ek
                (chain.reader.isNone && cfg.insertable) with h | ⟨b, h1, h2⟩
            · left; exact h
            · right; exact ⟨st, b, rfl, h1, h2⟩
      · rw [if_neg ht]
        left
        rfl
    · rw [if_neg hc]
      left
      rfl

/-- C1: every committed mutation hands the replicated KV layer at most one
batch (a single asyncAppendBatch call), and any committed batch is the
writeback batch itself: the index maintenance operations (direct index
puts/removes, or operation-log records during rebuild) followed by the
primary-row put — all in the same atomic batch. -/
theorem claim_C1 (cfg : TagExecCfg) (lockT : List VMLI) (chain : ChainResult)
    (apc : ErrorCode) (partId : Nat) (vId : String)
    (cfgE : EdgeExecCfg) (lockE : List EMLI) (chainE : ChainResult) (apcE : ErrorCode)
    (partE : Nat) (ek : EdgeKey) :
    (UpdateTagNode_execute cfg lockT chain apc partId vId).appends.length ≤ 1 ∧
    (∀ b ∈ (UpdateTagNode_execute cfg lockT chain apc partId vId).appends,
      ∃ st row ops,
        tagBranch cfg chain partId vId = Except.ok st ∧
        updateTagAndWriteBack cfg st partId vId = some b ∧
        b = ops ++ [BatchOp.put st.key (BVal.rowV row)] ∧
        ∀ op ∈ ops, isIndexMaintOp op = true) ∧
    (UpdateEdgeNode_execute cfgE lockE chainE apcE partE ek).appends.length ≤ 1 ∧
    (∀ b ∈ (UpdateEdgeNode_execute cfgE lockE chainE apcE partE ek).appends,
      ∃ st row ops,
        edgeBranch cfgE chainE partE ek = Except.ok st ∧
        updateEdgeAndWriteBack cfgE st partE ek = some b ∧
        b = ops ++ [BatchOp.put st.key (BVal.rowV row)] ∧
        ∀ op ∈ ops, isIndexMaintOp op = true) := by
  refine ⟨?_, ?_, ?_, ?_⟩
  · rcases tagExec_appends_shape cfg lockT chain apc partId vId with h | ⟨st, b0, _, _, h⟩ <;>
      rw [h] <;> simp
  · intro b hb
    rcases tagExec_appends_shape cfg lockT chain apc partId vId with
      h | ⟨st, b0, hbr, hwb, h⟩
    · rw [h] at hb; exact absurd hb (by simp)
    · rw [h] at hb
      simp at hb
      subst hb
      obtain ⟨p2, c2, row, ops, hA, hW, hO, hshape⟩ :=
        updateTagAndWriteBack_inv cfg st partId vId b hwb
      exact ⟨st, row, ops, hbr, hwb, hshape,
        tagIndexOpsAll_maint cfg.env cfg.spaceId cfg.tagId st partId vId (rowReader row)
          cfg.indexes ops hO⟩
  · rcases edgeExec_appends_shape cfgE lockE chainE apcE partE ek with
      h | ⟨st, b0, _, _, h⟩ <;> rw [h] <;> simp
  · intro b hb
    rcases edgeExec_appends_shape cfgE lockE chainE apcE partE ek with
      h | ⟨st, b0, hbr, hwb, h⟩
    · rw [h] at hb; exact absurd hb (by simp)
    · rw [h] at hb
      simp at hb
      subst hb
      obtain ⟨p2, c2, row, ops, hA, hW, hO, hshape⟩ :=
        updateEdgeAndWriteBack_inv cfgE st partE ek b hwb
      exact ⟨st, row, ops, hbr, hwb, hshape,
        edgeIndexOpsAll_maint cfgE.env cfgE.spaceId cfgE.edgeType st partE ek
          (rowReader row) cfgE.indexes ops hO⟩

theorem claim_C1_witness :
    (UpdateTagNode_execute cfgT1 [] chain0 ErrorCode.SUCCEEDED 0 "v").appends.length ≤ 1 ∧
    (∃ st row ops,
        tagBranch cfgT1 chain0 0 "v" = Except.ok st ∧
        updateTagAndWriteBack cfgT1 st 0 "v" =
          some [BatchOp.put (Key.vertex 0 "v" 2) (BVal.rowV [("c", Value.null)])] ∧
        [BatchOp.put (Key.vertex 0 "v" 2) (BVal.rowV [("c", Value.null)])] =
          ops ++ [BatchOp.put st.key (BVal.rowV row)] ∧
        ∀ op ∈ ops, isIndexMaintOp op = true) :=
  ⟨(claim_C1 cfgT1 [] chain0 ErrorCode.SUCCEEDED 0 "v"
      cfgE0 [] chain0 ErrorCode.SUCCEEDED 0 ek0).1,
   (claim_C1 cfgT1 [] chain0 ErrorCode.SUCCEEDED 0 "v"
      cfgE0 [] chain0 ErrorCode.SUCCEEDED 0 ek0).2.1
     [BatchOp.put (Key.vertex 0 "v" 2) (BVal.rowV [("c", Value.null)])] (by decide)⟩

/-! Lemmas toward C3: during rebuild the index delta is emitted as
operation-log records and never as direct index operations. -/

theorem Props.get_set_isSome (p : Props) (k m : String) (v : Value)
    (h : (p.get m).isSome) : ((p.set k v).get m).isSome := by
  rw [Props.get_set]
  by_cases hm : m = k <;> simp [hm, h]

theorem finishRow_preserve (fields : List Field) (acc row : Props) (n : String)
    (h : finishRow fields acc = some row) (hs : (acc.get n).isSome) :
    (row.get n).isSome := by
  induction fields generalizing acc with
  | nil =>
    unfold finishRow at h
    have := Option.some.inj h
    subst this
    exact hs
  | cons f rest ih =>
    unfold finishRow at h
    by_cases hp : (acc.get f.name).isSome
    · rw [if_pos hp] at h
      exact ih acc h hs
    · rw [if_neg hp] at h
      cases hd : f.defaultVal with
      | some e =>
        rw [hd] at h
        exact ih _ h (Props.get_set_isSome acc f.name n _ hs)
      | none =>
        rw [hd] at h
        by_cases hn : f.nullable = true
        · rw [if_pos hn] at h
          exact ih _ h (Props.get_set_isSome acc f.name n _ hs)
        · rw [if_neg hn] at h
          exact absurd h (by simp)

theorem finishRow_covers (fields : List Field) (acc row : Props)
    (h : finishRow fields acc = some row) :
    ∀ f ∈ fields, (row.get f.name).isSome := by
  induction fields generalizing acc with
  | nil =>
    intro f hf
    exact absurd hf (by simp)
  | cons g rest ih =>
    intro f hf
    unfold finishRow at h
    rcases List.mem_cons.mp hf with hfg | hfr
    · subst hfg
      by_cases hp : (acc.get f.name).isSome
      · rw [if_pos hp] at h
        exact finishRow_preserve rest acc row f.name h hp
      · rw [if_neg hp] at h
        cases hd : f.defaultVal with
        | some e =>
          rw [hd] at h
          refine finishRow_preserve rest _ row f.name h ?_
          rw [Props.get_set]
          simp
        | none =>
          rw [hd] at h
          by_cases hn : f.nullable = true
          · rw [if_pos hn] at h
            refine finishRow_preserve rest _ row f.name h ?_
            rw [Props.get_set]
            simp
          · rw [if_neg hn] at h
            exact absurd h (by simp)
    · by_cases hp : (acc.get g.name).isSome
      · rw [if_pos hp] at h
        exact ih acc h f hfr
      · rw [if_neg hp] at h
        cases hd : g.defaultVal with
        | some e =>
          rw [hd] at h
          exact ih _ h f hfr
        | none =>
          rw [hd] at h
          by_cases hn : g.nullable = true
          · rw [if_pos hn] at h
            exact ih _ h f hfr
          · rw [if_neg hn] at h
            exact absurd h (by simp)

theorem writeRow_covers (schema : Schema) (props row : Props)
    (h : writeRow schema props = some row) :
    ∀ f ∈ schema.fields, (row.get f.name).isSome := by
  unfold writeRow at h
  cases hs : setAllValues schema props [] with
  | none => rw [hs] at h; exact absurd h (by simp)
  | some w =>
    rw [hs] at h
    exact finishRow_covers schema.fields w row h

theorem collectIndexValues_some (r : Reader) (fields : List String)
    (h : ∀ n ∈ fields, (r n).isSome) :
    ∃ vs, collectIndexValues r fields = some vs := by
  induction fields with
  | nil => exact ⟨[], rfl⟩
  | cons n rest ih =>
    obtain ⟨v, hv⟩ := Option.isSome_iff_exists.mp (h n (by simp))
    obtain ⟨vs, hvs⟩ := ih (fun m hm => h m (by simp [hm]))
    refine ⟨v :: vs, ?_⟩
    unfold collectIndexValues
    rw [hv, hvs]
    rfl

theorem tagIndexOpsAll_mem (env : Env) (spaceId : Int) (tagId : Int) (st : TagRunState)
    (partId : Nat) (vId : String) (nReader : Reader) (il : List IndexItem) (ops : Batch)
    (h : tagIndexOpsAll env spaceId tagId st partId vId nReader il = some ops)
    (i : IndexItem) (hi : i ∈ il) :
    ∃ opsI, tagIndexOpsOne env spaceId tagId st partId vId nReader i = some opsI ∧
      ∀ op ∈ opsI, op ∈ ops := by
  induction il generalizing ops with
  | nil => exact absurd hi (by simp)
  | cons j rest ih =>
    unfold tagIndexOpsAll at h
    cases h1 : tagIndexOpsOne env spaceId tagId st partId vId nReader j with
    | none => rw [h1] at h; exact absurd h (by simp)
    | some ops1 =>
      rw [h1] at h
      cases h2 : tagIndexOpsAll env spaceId tagId st partId vId nReader rest with
      | none => rw [h2] at h; exact absurd h (by simp)
      | some ops2 =>
        rw [h2] at h
        have := Option.some.inj h
        subst this
        rcases List.mem_cons.mp hi with hj | hj
        · subst hj
          exact ⟨ops1, h1, fun op hop => List.mem_append.mpr (Or.inl hop)⟩
        · obtain ⟨opsI, hone, hsub⟩ := ih ops2 h2 hj
          exact ⟨opsI, hone, fun op hop => List.mem_append.mpr (Or.inr (hsub op hop))⟩

theorem tagIndexOpsOne_rebuilding (env : Env) (spaceId : Int) (tagId : Int)
    (st : TagRunState) (partId : Nat) (vId : String) (nReader : Reader) (i : IndexItem)
    (r : Reader) (oi ni : Key)
    (hm : tagId = i.schemaId) (hv : st.valNonempty = true) (hr : st.reader = some r)
    (hoi : vertexIndexKey partId i vId r = some oi)
    (hni : vertexIndexKey partId i vId nReader = some ni)
    (hreb : env.indexState spaceId partId = IndexState.rebuilding) :
    tagIndexOpsOne env spaceId tagId st partId vId nReader i =
      some [BatchOp.put (Key.deleteOp partId) (BVal.keyV oi),
            BatchOp.put (Key.modifyOp partId ni)
              (BVal.idxV (ttlValue st.schema nReader))] := by
  unfold tagIndexOpsOne tagIndexStep1 tagIndexStep2
  rw [if_pos hm, if_pos hv, hr]
  simp only
  rw [hoi, hreb]
  simp only [checkRebuilding]
  simp [hni, checkRebuilding]

theorem tagIndexStep1_oplog (env : Env) (spaceId : Int) (st : TagRunState) (partId : Nat)
    (vId : String) (i : IndexItem) (ops : Batch)
    (hreb : env.indexState spaceId partId = IndexState.rebuilding)
    (h : tagIndexStep1 env spaceId st partId vId i = some ops) :
    ∀ op ∈ ops, isOpLogKey (batchOpKey op) = true := by
  intro op hop
  unfold tagIndexStep1 at h
  by_cases hv : st.valNonempty = true
  · rw [if_pos hv] at h
    cases hr : st.reader with
    | none => rw [hr] at h; exact absurd h (by simp)
    | some r =>
      rw [hr] at h
      simp only at h
      cases hk : vertexIndexKey partId i vId r with
      | none =>
        rw [hk] at h
        have := Option.some.inj h
        subst this
        exact absurd hop (by simp)
      | some oi =>
        rw [hk] at h
        simp only at h
        rw [hreb] at h
        simp only [checkRebuilding] at h
        simp at h
        subst h
        simp at hop
        subst hop
        rfl
  · rw [if_neg hv] at h
    have := Option.some.inj h
    subst this
    exact absurd hop (by simp)

theorem tagIndexStep2_oplog (env : Env) (spaceId : Int) (schema : Schema) (partId : Nat)
    (vId : String) (nReader : Reader) (i : IndexItem) (ops1 ops : Batch)
    (hreb : env.indexState spaceId partId = IndexState.rebuilding)
    (h : tagIndexStep2 env spaceId schema partId vId nReader i ops1 = some ops)
    (h1 : ∀ op ∈ ops1, isOpLogKey (batchOpKey op) = true) :
    ∀ op ∈ ops, isOpLogKey (batchOpKey op) = true := by
  intro op hop
  unfold tagIndexStep2 at h
  cases hk : vertexIndexKey partId i vId nReader with
  | none =>
    rw [hk] at h
    have := Option.some.inj h
    subst this
    exact h1 op hop
  | some ni =>
    rw [hk] at h
    simp only at h
    rw [hreb] at h
    simp only [checkRebuilding] at h
    simp at h
    subst h
    rcases List.mem_append.mp hop with hin | hin
    · exact h1 op hin
    · simp at hin
      subst hin
      rfl

theorem tagIndexOpsOne_oplog (env : Env) (spaceId : Int) (tagId : Int) (st : TagRunState)
    (partId : Nat) (vId : String) (nReader : Reader) (i : IndexItem) (ops : Batch)
    (hreb : env.indexState spaceId partId = IndexState.rebuilding)
    (h : tagIndexOpsOne env spaceId tagId st partId vId nReader i = some ops) :
    ∀ op ∈ ops, isOpLogKey (batchOpKey op) = true := by
  unfold tagIndexOpsOne at h
  by_cases hm : tagId = i.schemaId
  · rw [if_pos hm] at h
    cases h1 : tagIndexStep1 env spaceId st partId vId i with
    | none => rw [h1] at h; exact absurd h (by simp)
    | some ops1 =>
      rw [h1] at h
      exact tagIndexStep2_oplog env spaceId st.schema partId vId nReader i ops1 ops hreb h
        (tagIndexStep1_oplog env spaceId st partId vId i ops1 hreb h1)
  · rw [if_neg hm] at h
    have := Option.some.inj h
    subst this
    intro op hop
    exact absurd hop (by simp)

theorem tagIndexOpsAll_oplog (env : Env) (spaceId : Int) (tagId : Int) (st : TagRunState)
    (partId : Nat) (vId : String) (nReader : Reader) (il : List IndexItem) (ops : Batch)
    (hreb : env.indexState spaceId partId = IndexState.rebuilding)
    (h : tagIndexOpsAll env spaceId tagId st partId vId nReader il = some ops) :
    ∀ op ∈ ops, isOpLogKey (batchOpKey op) = true := by
  induction il generalizing ops with
  | nil =>
    unfold tagIndexOpsAll at h
    have := Option.some.inj h
    subst this
    intro op hop
    exact absurd hop (by simp)
  | cons i rest ih =>
    unfold tagIndexOpsAll at h
    cases h1 : tagIndexOpsOne env spaceId tagId st partId vId nReader i with
    | none => rw [h1] at h; exact absurd h (by simp)
    | some ops1 =>
      rw [h1] at h
      cases h2 : tagIndexOpsAll env spaceId tagId st partId vId nReader rest with
      | none => rw [h2] at h; exact absurd h (by simp)
      | some ops2 =>
        rw [h2] at h
        have := Option.some.inj h
        subst this
        intro op hop
        rcases List.mem_append.mp hop with hin | hin
        · exact tagIndexOpsOne_oplog env spaceId tagId st partId vId nReader i ops1 hreb h1
            op hin
        · exact ih ops2 h2 op hin

theorem oplog_not_direct (iid : Int) (op : BatchOp)
    (h : isOpLogKey (batchOpKey op) = true) :
    isDirectVertexIndexOpFor iid op = false := by
  unfold isDirectVertexIndexOpFor
  cases hk : batchOpKey op <;> simp_all [isOpLogKey]

/-- C3: when the oracle reports Rebuilding, an update of an existing
indexed row commits a batch containing a delete-operation log record
(under the partition's delete-operation key, carrying the old index key)
and a modify-operation log record (under the modify-operation key for
the new index key), and no direct index put or remove for that index. -/
theorem claim_C3 (cfg : TagExecCfg) (lockT : List VMLI) (chain : ChainResult)
    (apc : ErrorCode) (partId : Nat) (vId : String) (st : TagRunState) (r : Reader)
    (b : Batch) (i : IndexItem) (oi : Key)
    (hlock : (cfg.spaceId, partId, cfg.tagId, vId) ∉ lockT)
    (hcode : chain.code = ErrorCode.SUCCEEDED)
    (hstat : chain.resultStat = ResultStatus.normal)
    (hbr : tagBranch cfg chain partId vId = Except.ok st)
    (hwb : updateTagAndWriteBack cfg st partId vId = some b)
    (hreb : cfg.env.indexState cfg.spaceId partId = IndexState.rebuilding)
    (hi : i ∈ cfg.indexes) (him : cfg.tagId = i.schemaId)
    (hv : st.valNonempty = true) (hr : st.reader = some r)
    (hoi : vertexIndexKey partId i vId r = some oi)
    (hfields : ∀ n ∈ i.fields, ∃ f, f ∈ st.schema.fields ∧ f.name = n)
    (hkey : ∃ pk vk tk, st.key = Key.vertex pk vk tk) :
    (UpdateTagNode_execute cfg lockT chain apc partId vId).appends = [b] ∧
    BatchOp.put (Key.deleteOp partId) (BVal.keyV oi) ∈ b ∧
    (∃ row ni, BatchOp.put st.key (BVal.rowV row) ∈ b ∧
      vertexIndexKey partId i vId (rowReader row) = some ni ∧
      BatchOp.put (Key.modifyOp partId ni)
        (BVal.idxV (ttlValue st.schema (rowReader row))) ∈ b) ∧
    (∀ op ∈ b, isDirectVertexIndexOpFor i.indexId op = false) := by
  obtain ⟨p2, c2, row, ops, hA, hW, hO, hshape⟩ :=
    updateTagAndWriteBack_inv cfg st partId vId b hwb
  have hcov := writeRow_covers st.schema p2 row hW
  have hread : ∀ n ∈ i.fields, ((rowReader row) n).isSome := by
    intro n hn
    obtain ⟨f, hf, hfn⟩ := hfields n hn
    have hsome := hcov f hf
    rw [hfn] at hsome
    exact hsome
  obtain ⟨vs, hvs⟩ := collectIndexValues_some (rowReader row) i.fields hread
  have hni : vertexIndexKey partId i vId (rowReader row) =
      some (Key.vertexIndex partId i.indexId vId vs) := by
    unfold vertexIndexKey
    rw [hvs]
    rfl
  obtain ⟨opsI, hone, hsub⟩ :=
    tagIndexOpsAll_mem cfg.env cfg.spaceId cfg.tagId st partId vId (rowReader row)
      cfg.indexes ops hO i hi
  have hone2 := tagIndexOpsOne_rebuilding cfg.env cfg.spaceId cfg.tagId st partId vId
    (rowReader row) i r oi (Key.vertexIndex partId i.indexId vId vs) him hv hr hoi hni hreb
  have hopsI : opsI =
      [BatchOp.put (Key.deleteOp partId) (BVal.keyV oi),
       BatchOp.put (Key.modifyOp partId (Key.vertexIndex partId i.indexId vId vs))
         (BVal.idxV (ttlValue st.schema (rowReader row)))] :=
    Option.some.inj (hone.symm.trans hone2)
  have hdel : BatchOp.put (Key.deleteOp partId) (BVal.keyV oi) ∈ ops := by
    refine hsub _ ?_
    rw [hopsI]
    simp
  have hmod : BatchOp.put (Key.modifyOp partId (Key.vertexIndex partId i.indexId vId vs))
      (BVal.idxV (ttlValue st.schema (rowReader row))) ∈ ops := by
    refine hsub _ ?_
    rw [hopsI]
    simp
  refine ⟨?_, ?_, ?_, ?_⟩
  · unfold UpdateTagNode_execute runTagWriteBack
    rw [if_neg hlock, if_pos hcode, hstat]
    simp only
    rw [hbr]
    simp only
    rw [hwb]
  · rw [hshape]
    exact List.mem_append.mpr (Or.inl hdel)
  · refine ⟨row, Key.vertexIndex partId i.indexId vId vs, ?_, hni, ?_⟩
    · rw [hshape]
      exact List.mem_append.mpr (Or.inr (by simp))
    · rw [hshape]
      exact List.mem_append.mpr (Or.inl hmod)
  · intro op hop
    rw [hshape] at hop
    rcases List.mem_append.mp hop with hin | hin
    · exact oplog_not_direct i.indexId op
        (tagIndexOpsAll_oplog cfg.env cfg.spaceId cfg.tagId st partId vId (rowReader row)
          cfg.indexes ops hreb hO op hin)
    · simp at hin
      subst hin
      obtain ⟨pk, vk, tk, hk⟩ := hkey
      unfold isDirectVertexIndexOpFor batchOpKey
      rw [hk]

theorem claim_C3_witness :
    (UpdateTagNode_execute cfgT2 [] chainU ErrorCode.SUCCEEDED 0 "v").appends = [bC3] ∧
    BatchOp.put (Key.deleteOp 0) (BVal.keyV (Key.vertexIndex 0 10 "v" [Value.int 1])) ∈
      bC3 ∧
    (∃ row ni, BatchOp.put stT2.key (BVal.rowV row) ∈ bC3 ∧
      vertexIndexKey 0 i1 "v" (rowReader row) = some ni ∧
      BatchOp.put (Key.modifyOp 0 ni)
        (BVal.idxV (ttlValue stT2.schema (rowReader row))) ∈ bC3) ∧
    (∀ op ∈ bC3, isDirectVertexIndexOpFor i1.indexId op = false) :=
  claim_C3 cfgT2 [] chainU ErrorCode.SUCCEEDED 0 "v" stT2 rdOld bC3 i1
    (Key.vertexIndex 0 10 "v" [Value.int 1])
    (by decide) rfl rfl rfl (by decide) rfl (by decide) rfl rfl rfl (by decide)
    (by
      intro n hn
      simp [i1] at hn
      subst hn
      exact ⟨⟨"c", true, none, fun _ => true⟩, by simp [stT2, schemaA], rfl⟩)
    ⟨0, "v", 2, rfl⟩

/-! Lemmas toward C2: a locked index state aborts the writeback. -/

theorem tagIndexOpsOne_locked_none (env : Env) (spaceId : Int) (tagId : Int)
    (st : TagRunState) (partId : Nat) (vId : String) (nReader : Reader) (i : IndexItem)
    (ni : Key) (him : tagId = i.schemaId)
    (hlk : env.indexState spaceId partId = IndexState.locked)
    (hni : vertexIndexKey partId i vId nReader = some ni) :
    tagIndexOpsOne env spaceId tagId st partId vId nReader i = none := by
  unfold tagIndexOpsOne tagIndexStep1 tagIndexStep2
  rw [if_pos him]
  by_cases hv : st.valNonempty = true
  · rw [if_pos hv]
    cases hr : st.reader with
    | none => rfl
    | some r =>
      simp only
      cases hk : vertexIndexKey partId i vId r with
      | none =>
        simp only
        rw [hni, hlk]
        simp [checkRebuilding, checkIndexLocked]
      | some oi =>
        simp only
        rw [hlk]
        simp [checkRebuilding, checkIndexLocked]
  · rw [if_neg hv]
    simp only
    rw [hni, hlk]
    simp [checkRebuilding, checkIndexLocked]

/-- C2 (amended): on an update or upsert of a row with at least one index
targeting its schema (all of whose indexed fields exist in the schema),
a Locked oracle state makes the executor abort before anything is
committed — nothing is handed to the KV layer — but the code returned to
the caller is the generic E_STORAGE_QUERY_INVALID_DATA, not a distinct
IndexLocked error. -/
theorem claim_C2 (cfg : TagExecCfg) (lockT : List VMLI) (chain : ChainResult)
    (apc : ErrorCode) (partId : Nat) (vId : String) (st : TagRunState)
    (hlock : (cfg.spaceId, partId, cfg.tagId, vId) ∉ lockT)
    (hcode : chain.code = ErrorCode.SUCCEEDED)
    (hstat : chain.resultStat = ResultStatus.normal)
    (hbr : tagBranch cfg chain partId vId = Except.ok st)
    (hlk : cfg.env.indexState cfg.spaceId partId = IndexState.locked)
    (hi : ∃ i, i ∈ cfg.indexes ∧ cfg.tagId = i.schemaId ∧
          ∀ n ∈ i.fields, ∃ f, f ∈ st.schema.fields ∧ f.name = n) :
    (UpdateTagNode_execute cfg lockT chain apc partId vId).code =
      ErrorCode.E_STORAGE_QUERY_INVALID_DATA ∧
    (UpdateTagNode_execute cfg lockT chain apc partId vId).appends = [] := by
  obtain ⟨i, hiMem, him, hfields⟩ := hi
  have hwb : updateTagAndWriteBack cfg st partId vId = none := by
    cases hwb : updateTagAndWriteBack cfg st partId vId with
    | none => rfl
    | some b =>
      exfalso
      obtain ⟨p2, c2, row, ops, hA, hW, hO, hshape⟩ :=
        updateTagAndWriteBack_inv cfg st partId vId b hwb
      have hcov := writeRow_covers st.schema p2 row hW
      have hread : ∀ n ∈ i.fields, ((rowReader row) n).isSome := by
        intro n hn
        obtain ⟨f, hf, hfn⟩ := hfields n hn
        have hsome := hcov f hf
        rw [hfn] at hsome
        exact hsome
      obtain ⟨vs, hvs⟩ := collectIndexValues_some (rowReader row) i.fields hread
      have hni : vertexIndexKey partId i vId (rowReader row) =
          some (Key.vertexIndex partId i.indexId vId vs) := by
        unfold vertexIndexKey
        rw [hvs]
        rfl
      obtain ⟨opsI, hone, hsub⟩ :=
        tagIndexOpsAll_mem cfg.env cfg.spaceId cfg.tagId st partId vId (rowReader row)
          cfg.indexes ops hO i hiMem
      rw [tagIndexOpsOne_locked_none cfg.env cfg.spaceId cfg.tagId st partId vId
        (rowReader row) i (Key.vertexIndex partId i.indexId vId vs) him hlk hni] at hone
      exact absurd hone (by simp)
  have hout : UpdateTagNode_execute cfg lockT chain apc partId vId =
      ⟨ErrorCode.E_STORAGE_QUERY_INVALID_DATA, [], true, none,
       chain.reader.isNone && cfg.insertable⟩ := by
    unfold UpdateTagNode_execute runTagWriteBack
    rw [if_neg hlock, if_pos hcode, hstat]
    simp only
    rw [hbr]
    simp only
    rw [hwb]
  rw [hout]
  exact ⟨rfl, rfl⟩

theorem claim_C2_witness :
    (UpdateTagNode_execute cfgT3 [] chainU ErrorCode.SUCCEEDED 0 "v").code =
      ErrorCode.E_STORAGE_QUERY_INVALID_DATA ∧
    (UpdateTagNode_execute cfgT3 [] chainU ErrorCode.SUCCEEDED 0 "v").appends = [] :=
  claim_C2 cfgT3 [] chainU ErrorCode.SUCCEEDED 0 "v" stT2 (by decide) rfl rfl rfl rfl
    ⟨i1, by decide, rfl, by
      intro n hn
      simp [i1] at hn
      subst hn
      exact ⟨⟨"c", true, none, fun _ => true⟩, by simp [stT2, schemaA], rfl⟩⟩

/-- C2, as stated, is false on the code: with the oracle Locked for the
partition of an indexed row, the executor aborts without committing but
returns E_STORAGE_QUERY_INVALID_DATA — not an IndexLocked error. -/
theorem claim_C2_counterexample :
    (UpdateTagNode_execute cfgT3 [] chainU ErrorCode.SUCCEEDED 0 "v").appends = [] ∧
    (UpdateTagNode_execute cfgT3 [] chainU ErrorCode.SUCCEEDED 0 "v").code =
      ErrorCode.E_STORAGE_QUERY_INVALID_DATA ∧
    (UpdateTagNode_execute cfgT3 [] chainU ErrorCode.SUCCEEDED 0 "v").code ≠
      ErrorCode.E_INDEX_LOCKED := by
  decide

/-! Lemmas toward C9: per-partition failure de-duplication in
LookupProcessor::process. -/

theorem processLookupGo_cons (leaderOf : Nat → Except ErrorCode Nat) (p : Nat)
    (c : ErrorCode) (rest : List (Nat × ErrorCode)) (failed : List Nat)
    (codes : List PartitionResult) :
    processLookupGo leaderOf ((p, c) :: rest) failed codes =
      if c = ErrorCode.SUCCEEDED then processLookupGo leaderOf rest failed codes
      else if p ∈ failed then processLookupGo leaderOf rest failed codes
      else processLookupGo leaderOf rest (p :: failed)
        (handleErrorCode leaderOf codes c p) := rfl

theorem firstFail_cons (p : Nat) (c : ErrorCode) (rest : List (Nat × ErrorCode)) (q : Nat) :
    firstFail ((p, c) :: rest) q =
      if p = q ∧ c ≠ ErrorCode.SUCCEEDED then some c else firstFail rest q := rfl

theorem pushResultCode_append (codes : List PartitionResult) (code : ErrorCode)
    (partId : Nat) (leader : Option Nat) :
    pushResultCode codes code partId leader =
      codes ++ pushResultCode [] code partId leader := by
  unfold pushResultCode
  by_cases h : code = ErrorCode.SUCCEEDED <;> simp [h]

theorem handleLeaderChanged_append (leaderOf : Nat → Except ErrorCode Nat)
    (codes : List PartitionResult) (partId : Nat) :
    handleLeaderChanged leaderOf codes partId =
      codes ++ handleLeaderChanged leaderOf [] partId := by
  unfold handleLeaderChanged
  cases h : leaderOf partId with
  | ok l => exact pushResultCode_append codes ErrorCode.E_LEADER_CHANGED partId (some l)
  | error e => exact pushResultCode_append codes e partId none

theorem handleErrorCode_append (leaderOf : Nat → Except ErrorCode Nat)
    (codes : List PartitionResult) (code : ErrorCode) (partId : Nat) :
    handleErrorCode leaderOf codes code partId =
      codes ++ handleErrorCode leaderOf [] code partId := by
  unfold handleErrorCode
  by_cases h1 : code = ErrorCode.SUCCEEDED
  · simp [h1]
  · rw [if_neg h1, if_neg h1]
    by_cases h2 : code = ErrorCode.E_LEADER_CHANGED
    · rw [if_pos h2, if_pos h2]
      exact handleLeaderChanged_append leaderOf codes partId
    · rw [if_neg h2, if_neg h2]
      exact pushResultCode_append codes code partId none

theorem handleErrorCode_partId (leaderOf : Nat → Except ErrorCode Nat) (code : ErrorCode)
    (p : Nat) : ∀ r ∈ handleErrorCode leaderOf [] code p, r.partId = p := by
  intro r hr
  unfold handleErrorCode at hr
  by_cases h1 : code = ErrorCode.SUCCEEDED
  · simp [h1] at hr
  · rw [if_neg h1] at hr
    by_cases h2 : code = ErrorCode.E_LEADER_CHANGED
    · rw [if_pos h2] at hr
      unfold handleLeaderChanged at hr
      cases hL : leaderOf p with
      | ok l =>
        rw [hL] at hr
        simp [pushResultCode] at hr
        rw [hr]
      | error e =>
        rw [hL] at hr
        by_cases h3 : e = ErrorCode.SUCCEEDED
        · simp [pushResultCode, h3] at hr
        · simp [pushResultCode, h3] at hr
          rw [hr]
    · rw [if_neg h2] at hr
      simp [pushResultCode, h1] at hr
      rw [hr]

theorem handleErrorCode_len (leaderOf : Nat → Except ErrorCode Nat) (code : ErrorCode)
    (p : Nat) : (handleErrorCode leaderOf [] code p).length ≤ 1 := by
  unfold handleErrorCode
  by_cases h1 : code = ErrorCode.SUCCEEDED
  · simp [h1]
  · rw [if_neg h1]
    by_cases h2 : code = ErrorCode.E_LEADER_CHANGED
    · rw [if_pos h2]
      unfold handleLeaderChanged
      cases hL : leaderOf p with
      | ok l => simp [pushResultCode]
      | error e => by_cases h3 : e = ErrorCode.SUCCEEDED <;> simp [pushResultCode, h3]
    · rw [if_neg h2]
      simp [pushResultCode, h1]

theorem handleErrorCode_ne_nil (leaderOf : Nat → Except ErrorCode Nat) (code : ErrorCode)
    (p : Nat)
    (hgood : ∀ q e, leaderOf q = Except.error e → e ≠ ErrorCode.SUCCEEDED)
    (hc : code ≠ ErrorCode.SUCCEEDED) :
    handleErrorCode leaderOf [] code p ≠ [] := by
  unfold handleErrorCode
  rw [if_neg hc]
  by_cases h2 : code = ErrorCode.E_LEADER_CHANGED
  · rw [if_pos h2]
    unfold handleLeaderChanged
    cases hL : leaderOf p with
    | ok l => simp [pushResultCode]
    | error e => simp [pushResultCode, hgood p e hL]
  · rw [if_neg h2]
    simp [pushResultCode, hc]

theorem processLookupGo_append (leaderOf : Nat → Except ErrorCode Nat)
    (rows : List (Nat × ErrorCode)) :
    ∀ (failed : List Nat) (codes : List PartitionResult),
      processLookupGo leaderOf rows failed codes =
        codes ++ processLookupGo leaderOf rows failed [] := by
  induction rows with
  | nil => intro failed codes; simp [processLookupGo]
  | cons rc rest ih =>
    intro failed codes
    obtain ⟨p, c⟩ := rc
    rw [processLookupGo_cons, processLookupGo_cons]
    by_cases h1 : c = ErrorCode.SUCCEEDED
    · rw [if_pos h1, if_pos h1]
      exact ih failed codes
    · rw [if_neg h1, if_neg h1]
      by_cases h2 : p ∈ failed
      · rw [if_pos h2, if_pos h2]
        exact ih failed codes
      · rw [if_neg h2, if_neg h2]
        rw [ih (p :: failed) (handleErrorCode leaderOf codes c p),
          ih (p :: failed) (handleErrorCode leaderOf [] c p),
          handleErrorCode_append leaderOf codes c p, List.append_assoc]

theorem processLookupGo_props (leaderOf : Nat → Except ErrorCode Nat)
    (hgood : ∀ q e, leaderOf q = Except.error e → e ≠ ErrorCode.SUCCEEDED)
    (rows : List (Nat × ErrorCode)) :
    ∀ failed : List Nat,
      (∀ r ∈ processLookupGo leaderOf rows failed [], r.partId ∉ failed ∧
        ∃ c, firstFail rows r.partId = some c ∧
          r ∈ handleErrorCode leaderOf [] c r.partId) ∧
      ((processLookupGo leaderOf rows failed []).map (fun r => r.partId)).Nodup ∧
      (∀ q, q ∉ failed → (∃ c, firstFail rows q = some c) →
        ∃ r ∈ processLookupGo leaderOf rows failed [], r.partId = q) := by
  induction rows with
  | nil =>
    intro failed
    refine ⟨?_, ?_, ?_⟩
    · intro r hr
      exact absurd hr (by simp [processLookupGo])
    · simp [processLookupGo]
    · intro q hq hex
      obtain ⟨c, hc⟩ := hex
      exact absurd hc (by simp [firstFail])
  | cons rc rest ih =>
    intro failed
    obtain ⟨p, c⟩ := rc
    by_cases h1 : c = ErrorCode.SUCCEEDED
    · have hgo : processLookupGo leaderOf ((p, c) :: rest) failed [] =
          processLookupGo leaderOf rest failed [] := by
        rw [processLookupGo_cons, if_pos h1]
      have hff : ∀ q, firstFail ((p, c) :: rest) q = firstFail rest q := by
        intro q
        rw [firstFail_cons, if_neg (by simp [h1])]
      rw [hgo]
      obtain ⟨ihr, ihn, ihc⟩ := ih failed
      refine ⟨?_, ihn, ?_⟩
      · intro r hr
        obtain ⟨hnf, cc, hcc, hm⟩ := ihr r hr
        exact ⟨hnf, cc, by rw [hff]; exact hcc, hm⟩
      · intro q hq hex
        obtain ⟨cc, hcc⟩ := hex
        rw [hff] at hcc
        exact ihc q hq ⟨cc, hcc⟩
    · by_cases h2 : p ∈ failed
      · have hgo : processLookupGo leaderOf ((p, c) :: rest) failed [] =
            processLookupGo leaderOf rest failed [] := by
          rw [processLookupGo_cons, if_neg h1, if_pos h2]
        rw [hgo]
        obtain ⟨ihr, ihn, ihc⟩ := ih failed
        refine ⟨?_, ihn, ?_⟩
        · intro r hr
          obtain ⟨hnf, cc, hcc, hm⟩ := ihr r hr
          refine ⟨hnf, cc, ?_, hm⟩
          rw [firstFail_cons, if_neg ?_]
          · exact hcc
          · intro hand
            exact hnf (hand.1 ▸ h2)
        · intro q hq hex
          obtain ⟨cc, hcc⟩ := hex
          rw [firstFail_cons, if_neg ?_] at hcc
          · exact ihc q hq ⟨cc, hcc⟩
          · intro hand
            exact hq (hand.1 ▸ h2)
      · have hgo : processLookupGo leaderOf ((p, c) :: rest) failed [] =
            handleErrorCode leaderOf [] c p ++
              processLookupGo leaderOf rest (p :: failed) [] := by
          rw [processLookupGo_cons, if_neg h1, if_neg h2]
          exact processLookupGo_append leaderOf rest (p :: failed)
            (handleErrorCode leaderOf [] c p)
        rw [hgo]
        obtain ⟨ihr, ihn, ihc⟩ := ih (p :: failed)
        refine ⟨?_, ?_, ?_⟩
        · intro r hr
          rcases List.mem_append.mp hr with hin | hin
          · have hp := handleErrorCode_partId leaderOf c p r hin
            refine ⟨by rw [hp]; exact h2, c, ?_, by rw [hp]; exact hin⟩
            rw [firstFail_cons, hp, if_pos ⟨rfl, h1⟩]
          · obtain ⟨hnf, cc, hcc, hm⟩ := ihr r hin
            have hne : r.partId ≠ p := fun h => hnf (h ▸ List.mem_cons_self p failed)
            refine ⟨fun h => hnf (List.mem_cons_of_mem p h), cc, ?_, hm⟩
            rw [firstFail_cons, if_neg (fun hand => hne hand.1.symm)]
            exact hcc
        · rw [List.map_append]
          rcases hE : handleErrorCode leaderOf [] c p with _ | ⟨r0, rrest⟩
          · simpa using ihn
          · have hlen := handleErrorCode_len leaderOf c p
            rw [hE] at hlen
            have hrrest : rrest = [] := by
              cases rrest with
              | nil => rfl
              | cons x xs => simp at hlen
            subst hrrest
            have hr0 : r0.partId = p :=
              handleErrorCode_partId leaderOf c p r0 (by rw [hE]; simp)
            simp only [List.map_cons, List.map_nil, List.nil_append,
              List.singleton_append, List.nodup_cons]
            refine ⟨?_, ihn⟩
            intro hmem
            rw [List.mem_map] at hmem
            obtain ⟨r, hr, hrp⟩ := hmem
            have hnotin := (ihr r hr).1
            rw [hr0] at hrp
            exact hnotin (hrp ▸ List.mem_cons_self p failed)
        · intro q hq hex
          obtain ⟨cc, hcc⟩ := hex
          by_cases hqp : q = p
          · subst hqp
            have hne := handleErrorCode_ne_nil leaderOf c q hgood h1
            rcases hE : handleErrorCode leaderOf [] c q with _ | ⟨r0, rrest⟩
            · exact absurd hE hne
            · have hr0mem : r0 ∈ handleErrorCode leaderOf [] c q := by
                rw [hE]
                exact List.mem_cons_self r0 rrest
              exact ⟨r0, List.mem_append.mpr (Or.inl (List.mem_cons_self r0 rrest)),
                handleErrorCode_partId leaderOf c q r0 hr0mem⟩
          · rw [firstFail_cons, if_neg (fun hand => hqp hand.1.symm)] at hcc
            obtain ⟨r, hr, hrq⟩ := ihc q
              (fun h => (List.mem_cons.mp h).elim (fun he => hqp he) hq) ⟨cc, hcc⟩
            exact ⟨r, List.mem_append.mpr (Or.inr hr), hrq⟩

/-- C9: the dispatcher records at most one failure entry per partition
id; every recorded entry derives (through handleErrorCode) from the
first failing result that partition reported; and a partition appears in
the result vector exactly when one of its rows failed. -/
theorem claim_C9 (leaderOf : Nat → Except ErrorCode Nat) (rows : List (Nat × ErrorCode))
    (hgood : ∀ q e, leaderOf q = Except.error e → e ≠ ErrorCode.SUCCEEDED) :
    ((LookupProcessor_process leaderOf rows).map (fun r => r.partId)).Nodup ∧
    (∀ r ∈ LookupProcessor_process leaderOf rows,
      ∃ c, firstFail rows r.partId = some c ∧
        r ∈ handleErrorCode leaderOf [] c r.partId) ∧
    (∀ q, (∃ c, firstFail rows q = some c) ↔
      ∃ r ∈ LookupProcessor_process leaderOf rows, r.partId = q) := by
  obtain ⟨hrec, hnodup, hcov⟩ := processLookupGo_props leaderOf hgood rows []
  refine ⟨hnodup, ?_, ?_⟩
  · intro r hr
    obtain ⟨hn, cc, hcc, hm⟩ := hrec r hr
    exact ⟨cc, hcc, hm⟩
  · intro q
    constructor
    · intro hex
      exact hcov q (by simp) hex
    · intro hex
      obtain ⟨r, hr, hrq⟩ := hex
      obtain ⟨hn, cc, hcc, hm⟩ := hrec r hr
      exact ⟨cc, hrq ▸ hcc⟩

theorem claim_C9_witness :
    ((LookupProcessor_process leaderOfW rowsW).map (fun r => r.partId)).Nodup ∧
    (∀ r ∈ LookupProcessor_process leaderOfW rowsW,
      ∃ c, firstFail rowsW r.partId = some c ∧
        r ∈ handleErrorCode leaderOfW [] c r.partId) ∧
    (∀ q, (∃ c, firstFail rowsW q = some c) ↔
      ∃ r ∈ LookupProcessor_process leaderOfW rowsW, r.partId = q) :=
  claim_C9 leaderOfW rowsW (by intro q e h; simp [leaderOfW] at h)

/-! Lemmas toward C5: upsert insert-path semantics. -/

theorem Props.get_cons (k : String) (v : Value) (l : Props) (n : String) :
    Props.get ((k, v) :: l) n = if k = n then some v else Props.get l n := by
  unfold Props.get
  by_cases h : k = n
  · rw [List.find?_cons_of_pos _ (by simpa using h), if_pos h]
    rfl
  · rw [List.find?_cons_of_neg _ (by simpa using h), if_neg h]

theorem Props.get_isSome_mem (p : Props) (n : String) (h : (p.get n).isSome) :
    n ∈ p.map Prod.fst := by
  induction p with
  | nil => simp [Props.get] at h
  | cons e rest ih =>
    obtain ⟨k, v⟩ := e
    rw [Props.get_cons] at h
    by_cases hk : k = n
    · simp [hk]
    · rw [if_neg hk] at h
      simp [ih h]

theorem Props.keys_nodup_set (p : Props) (k : String) (v : Value)
    (h : (p.map Prod.fst).Nodup) : ((p.set k v).map Prod.fst).Nodup := by
  unfold Props.set
  rw [List.map_cons, List.nodup_cons]
  constructor
  · intro hmem
    rw [List.mem_map] at hmem
    obtain ⟨e, he, hek⟩ := hmem
    rw [List.mem_filter] at he
    have := he.2
    simp [hek] at this
  · exact List.Sublist.nodup ((List.filter_sublist p).map Prod.fst) h

theorem applyUpdates_preserve (ups : List UpdatedProp) :
    ∀ (props : Props) (ctx : Ctx) (p2 : Props) (c2 : Ctx),
      applyUpdates ups props ctx = some (p2, c2) →
      ∀ n, n ∉ ups.map UpdatedProp.name → p2.get n = props.get n := by
  induction ups with
  | nil =>
    intro props ctx p2 c2 h n _
    unfold applyUpdates at h
    have heq : props = p2 := congrArg Prod.fst (Option.some.inj h)
    rw [← heq]
  | cons u rest ih =>
    intro props ctx p2 c2 h n hn
    unfold applyUpdates at h
    cases hu : u.value with
    | none => rw [hu] at h; exact absurd h (by simp)
    | some e =>
      rw [hu] at h
      simp only at h
      have hn1 : n ∉ rest.map UpdatedProp.name := fun hmem => hn (by simp [hmem])
      have hn2 : ¬ n = u.name := fun heq => hn (by simp [heq])
      rw [ih _ _ _ _ h n hn1, Props.get_set, if_neg hn2]

theorem applyUpdates_nodup (ups : List UpdatedProp) :
    ∀ (props : Props) (ctx : Ctx) (p2 : Props) (c2 : Ctx),
      applyUpdates ups props ctx = some (p2, c2) →
      (props.map Prod.fst).Nodup → (p2.map Prod.fst).Nodup := by
  induction ups with
  | nil =>
    intro props ctx p2 c2 h hnd
    unfold applyUpdates at h
    have heq : props = p2 := congrArg Prod.fst (Option.some.inj h)
    rw [← heq]
    exact hnd
  | cons u rest ih =>
    intro props ctx p2 c2 h hnd
    unfold applyUpdates at h
    cases hu : u.value with
    | none => rw [hu] at h; exact absurd h (by simp)
    | some e =>
      rw [hu] at h
      simp only at h
      exact ih _ _ _ _ h (Props.keys_nodup_set props u.name _ hnd)

theorem Schema.field_name (s : Schema) (n : String) (f : Field) (h : s.field n = some f) :
    f.name = n := by
  unfold Schema.field at h
  have := List.find?_some h
  simpa using this

theorem find_name_of_mem (l : List Field) (f : Field)
    (hnd : (l.map Field.name).Nodup) (hf : f ∈ l) :
    l.find? (fun g => g.name == f.name) = some f := by
  induction l with
  | nil => exact absurd hf (by simp)
  | cons g rest ih =>
    rw [List.map_cons, List.nodup_cons] at hnd
    rcases List.mem_cons.mp hf with hfg | hfr
    · subst hfg
      exact List.find?_cons_of_pos _ (by simp)
    · have hne : ¬ g.name = f.name := by
        intro he
        exact hnd.1 (he ▸ List.mem_map.mpr ⟨f, hfr, rfl⟩)
      rw [List.find?_cons_of_neg _ (by simpa using hne)]
      exact ih hnd.2 hfr

theorem Schema.field_of_mem (s : Schema) (f : Field)
    (hnd : (s.fields.map Field.name).Nodup) (hf : f ∈ s.fields) :
    s.field f.name = some f :=
  find_name_of_mem s.fields f hnd hf

theorem getDefaultOrNull_ok (props : Props) (f : Field) (n : String) (props2 : Props)
    (hf : f.name = n) (h : getDefaultOrNullValue props f n = Except.ok props2) :
    props2 = props.set n (fieldDefault f) ∧
      (f.defaultVal.isSome ∨ f.nullable = true) := by
  unfold getDefaultOrNullValue at h
  cases hd : f.defaultVal with
  | some e =>
    rw [hd] at h
    have := Except.ok.inj h
    refine ⟨?_, Or.inl (by simp [hd])⟩
    rw [← this, hf]
    unfold fieldDefault
    rw [hd]
  | none =>
    rw [hd] at h
    by_cases hn : f.nullable = true
    · rw [if_pos hn] at h
      have := Except.ok.inj h
      refine ⟨?_, Or.inr hn⟩
      rw [← this]
      unfold fieldDefault
      rw [hd]
    · rw [if_neg hn] at h
      exact absurd h (by simp)

theorem getDefaultOrNull_err (props : Props) (f : Field) (n : String) (e : ErrorCode)
    (h : getDefaultOrNullValue props f n = Except.error e) :
    e = ErrorCode.E_STORAGE_SCHEMA_NO_DEFAULT_VALUE_AND_NOT_NULLABLE := by
  unfold getDefaultOrNullValue at h
  cases hd : f.defaultVal with
  | some e2 => rw [hd] at h; exact absurd h (by simp)
  | none =>
    rw [hd] at h
    by_cases hn : f.nullable = true
    · rw [if_pos hn] at h
      exact absurd h (by simp)
    · rw [if_neg hn] at h
      exact (Except.error.inj h).symm

theorem checkDepProps_inv (schema : Schema) (isEdge : Bool) (deps : List String) :
    ∀ (checked : List String) (props : Props) (checked2 : List String) (props2 : Props),
      checkDepProps schema isEdge deps checked props = Except.ok (checked2, props2) →
      (PropsDefaulted schema props → PropsDefaulted schema props2) ∧
      (∀ n, (props.get n).isSome → (props2.get n).isSome) ∧
      ((props.map Prod.fst).Nodup → (props2.map Prod.fst).Nodup) ∧
      (∀ n ∈ checked2, n ∈ checked ∨ (props2.get n).isSome) := by
  induction deps with
  | nil =>
    intro checked props checked2 props2 h
    unfold checkDepProps at h
    have hinj := Except.ok.inj h
    have hc : checked = checked2 := congrArg Prod.fst hinj
    have hp : props = props2 := congrArg Prod.snd hinj
    subst hc
    subst hp
    exact ⟨id, fun n hs => hs, id, fun n hn => Or.inl hn⟩
  | cons p rest ih =>
    intro checked props checked2 props2 h
    unfold checkDepProps at h
    by_cases hpc : p ∈ checked
    · rw [if_pos hpc] at h
      exact ih checked props checked2 props2 h
    · rw [if_neg hpc] at h
      cases hcf : schema.field p with
      | none =>
        rw [hcf] at h
        simp [checkField] at h
      | some f =>
        rw [hcf] at h
        simp only [checkField] at h
        cases hgd : getDefaultOrNullValue props f p with
        | error e => rw [hgd] at h; exact absurd h (by simp)
        | ok props3 =>
          rw [hgd] at h
          simp only at h
          obtain ⟨heq, hside⟩ :=
            getDefaultOrNull_ok props f p props3 (Schema.field_name schema p f hcf) hgd
          obtain ⟨hJ, hS, hN, hC⟩ := ih (p :: checked) props3 checked2 props2 h
          have hJ0 : PropsDefaulted schema props → PropsDefaulted schema props3 := by
            intro hPD n v hget
            rw [heq, Props.get_set] at hget
            by_cases hnp : n = p
            · rw [if_pos hnp] at hget
              subst hnp
              exact ⟨f, hcf, (Option.some.inj hget).symm, hside⟩
            · rw [if_neg hnp] at hget
              exact hPD n v hget
          have hS0 : ∀ n, (props.get n).isSome → (props3.get n).isSome := by
            intro n hs
            rw [heq, Props.get_set]
            by_cases hnp : n = p <;> simp [hnp, hs]
          have hN0 : (props.map Prod.fst).Nodup → (props3.map Prod.fst).Nodup := by
            intro hnd
            rw [heq]
            exact Props.keys_nodup_set props p _ hnd
          refine ⟨fun hPD => hJ (hJ0 hPD), fun n hs => hS n (hS0 n hs),
            fun hnd => hN (hN0 hnd), ?_⟩
          intro n hn
          rcases hC n hn with hin | hs
          · rcases List.mem_cons.mp hin with hnp | hin2
            · subst hnp
              refine Or.inr (hS n ?_)
              rw [heq, Props.get_set, if_pos rfl]
              rfl
            · exact Or.inl hin2
          · exact Or.inr hs

theorem checkDepMap_inv (schema : Schema) (isEdge : Bool)
    (dm : List (String × List String)) :
    ∀ (checked : List String) (props : Props) (checked2 : List String) (props2 : Props),
      checkDepMap schema isEdge dm checked props = Except.ok (checked2, props2) →
      (PropsDefaulted schema props → PropsDefaulted schema props2) ∧
      (∀ n, (props.get n).isSome → (props2.get n).isSome) ∧
      ((props.map Prod.fst).Nodup → (props2.map Prod.fst).Nodup) ∧
      (∀ n ∈ checked2, n ∈ checked ∨ n ∈ dm.map Prod.fst ∨ (props2.get n).isSome) := by
  induction dm with
  | nil =>
    intro checked props checked2 props2 h
    unfold checkDepMap at h
    have hinj := Except.ok.inj h
    have hc : checked = checked2 := congrArg Prod.fst hinj
    have hp : props = props2 := congrArg Prod.snd hinj
    subst hc
    subst hp
    exact ⟨id, fun n hs => hs, id, fun n hn => Or.inl hn⟩
  | cons td rest ih =>
    intro checked props checked2 props2 h
    obtain ⟨tgt, deps⟩ := td
    unfold checkDepMap at h
    cases hdp : checkDepProps schema isEdge deps checked props with
    | error e => rw [hdp] at h; exact absurd h (by simp)
    | ok cp =>
      obtain ⟨c2, p2⟩ := cp
      rw [hdp] at h
      simp only at h
      cases hcf : schema.field tgt with
      | none =>
        rw [hcf] at h
        simp [checkField] at h
      | some f =>
        rw [hcf] at h
        simp only [checkField] at h
        obtain ⟨dJ, dS, dN, dC⟩ := checkDepProps_inv schema isEdge deps checked props c2 p2 hdp
        obtain ⟨mJ, mS, mN, mC⟩ := ih (tgt :: c2) p2 checked2 props2 h
        refine ⟨fun hPD => mJ (dJ hPD), fun n hs => mS n (dS n hs),
          fun hnd => mN (dN hnd), ?_⟩
        intro n hn
        rcases mC n hn with hin | hdm2 | hs
        · rcases List.mem_cons.mp hin with hnt | hin2
          · subst hnt
            exact Or.inr (Or.inl (by simp))
          · rcases dC n hin2 with hin3 | hs3
            · exact Or.inl hin3
            · exact Or.inr (Or.inr (mS n hs3))
        · exact Or.inr (Or.inl (by simp [hdm2]))
        · exact Or.inr (Or.inr hs)

theorem fillRemaining_inv (schema : Schema) (checked : List String) (fields : List Field) :
    ∀ (props props2 : Props),
      (∀ f ∈ fields, schema.field f.name = some f) →
      fillRemaining checked fields props = Except.ok props2 →
      (PropsDefaulted schema props → PropsDefaulted schema props2) ∧
      (∀ n, (props.get n).isSome → (props2.get n).isSome) ∧
      ((props.map Prod.fst).Nodup → (props2.map Prod.fst).Nodup) ∧
      (∀ f ∈ fields, f.name ∈ checked ∨ (props2.get f.name).isSome) := by
  induction fields with
  | nil =>
    intro props props2 hsub h
    unfold fillRemaining at h
    have hp := Except.ok.inj h
    subst hp
    exact ⟨id, fun n hs => hs, id, fun f hf => absurd hf (by simp)⟩
  | cons f rest ih =>
    intro props props2 hsub h
    unfold fillRemaining at h
    have hsubr : ∀ g ∈ rest, schema.field g.name = some g :=
      fun g hg => hsub g (List.mem_cons_of_mem f hg)
    have hcf : schema.field f.name = some f := hsub f (by simp)
    by_cases hfc : f.name ∈ checked
    · rw [if_pos hfc] at h
      obtain ⟨rJ, rS, rN, rC⟩ := ih props props2 hsubr h
      refine ⟨rJ, rS, rN, ?_⟩
      intro g hg
      rcases List.mem_cons.mp hg with hgf | hgr
      · subst hgf
        exact Or.inl hfc
      · exact rC g hgr
    · rw [if_neg hfc] at h
      cases hgd : getDefaultOrNullValue props f f.name with
      | error e => rw [hgd] at h; exact absurd h (by simp)
      | ok props3 =>
        rw [hgd] at h
        simp only at h
        obtain ⟨heq, hside⟩ := getDefaultOrNull_ok props f f.name props3 rfl hgd
        obtain ⟨rJ, rS, rN, rC⟩ := ih props3 props2 hsubr h
        have hJ0 : PropsDefaulted schema props → PropsDefaulted schema props3 := by
          intro hPD n v hget
          rw [heq, Props.get_set] at hget
          by_cases hnp : n = f.name
          · rw [if_pos hnp] at hget
            subst hnp
            exact ⟨f, hcf, (Option.some.inj hget).symm, hside⟩
          · rw [if_neg hnp] at hget
            exact hPD n v hget
        have hS0 : ∀ n, (props.get n).isSome → (props3.get n).isSome := by
          intro n hs
          rw [heq, Props.get_set]
          by_cases hnp : n = f.name <;> simp [hnp, hs]
        have hN0 : (props.map Prod.fst).Nodup → (props3.map Prod.fst).Nodup := by
          intro hnd
          rw [heq]
          exact Props.keys_nodup_set props f.name _ hnd
        refine ⟨fun hPD => rJ (hJ0 hPD), fun n hs => rS n (hS0 n hs),
          fun hnd => rN (hN0 hnd), ?_⟩
        intro g hg
        rcases List.mem_cons.mp hg with hgf | hgr
        · subst hgf
          refine Or.inr (rS g.name ?_)
          rw [heq, Props.get_set, if_pos rfl]
          rfl
        · exact rC g hgr

theorem checkDepProps_err (schema : Schema) (isEdge : Bool) (deps : List String) :
    ∀ (checked : List String) (props : Props) (e : ErrorCode),
      checkDepProps schema isEdge deps checked props = Except.error e →
      (∀ n ∈ deps, (schema.field n).isSome) →
      e = ErrorCode.E_STORAGE_SCHEMA_NO_DEFAULT_VALUE_AND_NOT_NULLABLE := by
  induction deps with
  | nil =>
    intro checked props e h _
    unfold checkDepProps at h
    exact absurd h (by simp)
  | cons p rest ih =>
    intro checked props e h hin
    unfold checkDepProps at h
    by_cases hpc : p ∈ checked
    · rw [if_pos hpc] at h
      exact ih checked props e h (fun n hn => hin n (List.mem_cons_of_mem p hn))
    · rw [if_neg hpc] at h
      cases hcf : schema.field p with
      | none => exact absurd (hcf ▸ hin p (by simp)) (by simp)
      | some f =>
        rw [hcf] at h
        simp only [checkField] at h
        cases hgd : getDefaultOrNullValue props f p with
        | error e2 =>
          rw [hgd] at h
          have he := Except.error.inj h
          rw [← he]
          exact getDefaultOrNull_err props f p e2 hgd
        | ok props3 =>
          rw [hgd] at h
          simp only at h
          exact ih (p :: checked) props3 e h
            (fun n hn => hin n (List.mem_cons_of_mem p hn))

theorem checkDepMap_err (schema : Schema) (isEdge : Bool)
    (dm : List (String × List String)) :
    ∀ (checked : List String) (props : Props) (e : ErrorCode),
      checkDepMap schema isEdge dm checked props = Except.error e →
      (∀ pr ∈ dm, (schema.field pr.1).isSome ∧ ∀ n ∈ pr.2, (schema.field n).isSome) →
      e = ErrorCode.E_STORAGE_SCHEMA_NO_DEFAULT_VALUE_AND_NOT_NULLABLE := by
  induction dm with
  | nil =>
    intro checked props e h _
    unfold checkDepMap at h
    exact absurd h (by simp)
  | cons td rest ih =>
    intro checked props e h hin
    obtain ⟨tgt, deps⟩ := td
    unfold checkDepMap at h
    cases hdp : checkDepProps schema isEdge deps checked props with
    | error e2 =>
      rw [hdp] at h
      have he := Except.error.inj h
      rw [← he]
      exact checkDepProps_err schema isEdge deps checked props e2 hdp
        (hin (tgt, deps) (by simp)).2
    | ok cp =>
      obtain ⟨c2, p2⟩ := cp
      rw [hdp] at h
      simp only at h
      cases hcf : schema.field tgt with
      | none => exact absurd (hcf ▸ (hin (tgt, deps) (by simp)).1) (by simp)
      | some f =>
        rw [hcf] at h
        simp only [checkField] at h
        exact ih (tgt :: c2) p2 e h (fun pr hpr => hin pr (List.mem_cons_of_mem _ hpr))

theorem fillRemaining_err (checked : List String) (fields : List Field) :
    ∀ (props : Props) (e : ErrorCode),
      fillRemaining checked fields props = Except.error e →
      e = ErrorCode.E_STORAGE_SCHEMA_NO_DEFAULT_VALUE_AND_NOT_NULLABLE := by
  induction fields with
  | nil =>
    intro props e h
    unfold fillRemaining at h
    exact absurd h (by simp)
  | cons f rest ih =>
    intro props e h
    unfold fillRemaining at h
    by_cases hfc : f.name ∈ checked
    · rw [if_pos hfc] at h
      exact ih props e h
    · rw [if_neg hfc] at h
      cases hgd : getDefaultOrNullValue props f f.name with
      | error e2 =>
        rw [hgd] at h
        have he := Except.error.inj h
        rw [← he]
        exact getDefaultOrNull_err props f f.name e2 hgd
      | ok props3 =>
        rw [hgd] at h
        simp only at h
        exact ih props3 e h

theorem checkProps_err (schema : Schema) (isEdge : Bool)
    (dm : List (String × List String)) (e : ErrorCode)
    (h : checkPropsAndGetDefaultValue schema isEdge dm = Except.error e)
    (hin : ∀ pr ∈ dm, (schema.field pr.1).isSome ∧ ∀ n ∈ pr.2, (schema.field n).isSome) :
    e = ErrorCode.E_STORAGE_SCHEMA_NO_DEFAULT_VALUE_AND_NOT_NULLABLE := by
  unfold checkPropsAndGetDefaultValue at h
  cases hdm : checkDepMap schema isEdge dm [] [] with
  | error e2 =>
    rw [hdm] at h
    have he := Except.error.inj h
    rw [← he]
    exact checkDepMap_err schema isEdge dm [] [] e2 hdm hin
  | ok cp =>
    obtain ⟨checked, props⟩ := cp
    rw [hdm] at h
    simp only at h
    exact fillRemaining_err checked schema.fields props e h

theorem checkProps_ok_char (schema : Schema) (isEdge : Bool)
    (dm : List (String × List String)) (props3 : Props)
    (hnodup : (schema.fields.map Field.name).Nodup)
    (h : checkPropsAndGetDefaultValue schema isEdge dm = Except.ok props3) :
    (∀ f ∈ schema.fields, f.name ∉ dm.map Prod.fst →
      props3.get f.name = some (fieldDefault f) ∧
        (f.defaultVal.isSome ∨ f.nullable = true)) ∧
    (props3.map Prod.fst).Nodup := by
  unfold checkPropsAndGetDefaultValue at h
  cases hdm : checkDepMap schema isEdge dm [] [] with
  | error e => rw [hdm] at h; exact absurd h (by simp)
  | ok cp =>
    obtain ⟨checked, props⟩ := cp
    rw [hdm] at h
    simp only at h
    obtain ⟨mJ, mS, mN, mC⟩ := checkDepMap_inv schema isEdge dm [] [] checked props hdm
    obtain ⟨fJ, fS, fN, fC⟩ := fillRemaining_inv schema checked schema.fields props props3
      (fun f hf => Schema.field_of_mem schema f hnodup hf) h
    have hPDe : PropsDefaulted schema ([] : Props) := by
      intro n v hget
      simp [Props.get] at hget
    have hJ3 : PropsDefaulted schema props3 := fJ (mJ hPDe)
    have hn3 : (props3.map Prod.fst).Nodup := fN (mN (by simp))
    refine ⟨?_, hn3⟩
    intro f hf hnt
    have hsome : (props3.get f.name).isSome := by
      rcases fC f hf with hin | hs
      · rcases mC f.name hin with h0 | hdm2 | hs2
        · exact absurd h0 (by simp)
        · exact absurd hdm2 hnt
        · exact fS f.name hs2
      · exact hs
    obtain ⟨v, hv⟩ := Option.isSome_iff_exists.mp hsome
    obtain ⟨f2, hf2, hveq, hside⟩ := hJ3 f.name v hv
    have hsf := Schema.field_of_mem schema f hnodup hf
    rw [hsf] at hf2
    have hff : f = f2 := Option.some.inj hf2
    subst hff
    rw [hv, hveq]
    exact ⟨rfl, hside⟩

theorem setAll_get (schema : Schema) (l : Props) :
    ∀ (acc w : Props), setAllValues schema l acc = some w →
      (l.map Prod.fst).Nodup →
      (∀ n, n ∈ l.map Prod.fst → w.get n = l.get n) ∧
      (∀ n, n ∉ l.map Prod.fst → w.get n = acc.get n) := by
  induction l with
  | nil =>
    intro acc w h _
    unfold setAllValues at h
    have hw := Option.some.inj h
    subst hw
    exact ⟨fun n hn => absurd hn (by simp), fun n _ => rfl⟩
  | cons kv rest ih =>
    intro acc w h hnd
    obtain ⟨k, v⟩ := kv
    unfold setAllValues at h
    cases hcf : schema.field k with
    | none => rw [hcf] at h; exact absurd h (by simp)
    | some f =>
      rw [hcf] at h
      simp only at h
      by_cases hty : f.typeOk v = true
      · rw [if_pos hty] at h
        rw [List.map_cons, List.nodup_cons] at hnd
        obtain ⟨ihm, ihn⟩ := ih (acc.set k v) w h hnd.2
        constructor
        · intro n hn
          rw [List.map_cons] at hn
          rcases List.mem_cons.mp hn with hnk | hnr
          · subst hnk
            rw [ihn n hnd.1, Props.get_set, if_pos rfl, Props.get_cons, if_pos rfl]
          · have hkn : ¬ k = n := fun he => hnd.1 (he ▸ hnr)
            rw [ihm n hnr, Props.get_cons, if_neg hkn]
        · intro n hn
          have hn1 : n ∉ rest.map Prod.fst := fun hmem => hn (by simp [hmem])
          have hn2 : ¬ n = k := fun he => hn (by simp [he])
          rw [ihn n hn1, Props.get_set, if_neg hn2]
      · rw [if_neg hty] at h
        exact absurd h (by simp)

theorem finishRow_get_preserve (fields : List Field) :
    ∀ (acc row : Props) (n : String),
      finishRow fields acc = some row → (acc.get n).isSome →
      row.get n = acc.get n := by
  induction fields with
  | nil =>
    intro acc row n h _
    unfold finishRow at h
    rw [← Option.some.inj h]
  | cons f rest ih =>
    intro acc row n h hs
    unfold finishRow at h
    by_cases hp : (acc.get f.name).isSome
    · rw [if_pos hp] at h
      exact ih acc row n h hs
    · rw [if_neg hp] at h
      have hne : ¬ n = f.name := fun he => hp (he ▸ hs)
      cases hd : f.defaultVal with
      | some e =>
        rw [hd] at h
        rw [ih _ row n h (by rw [Props.get_set, if_neg hne]; exact hs),
          Props.get_set, if_neg hne]
      | none =>
        rw [hd] at h
        by_cases hn : f.nullable = true
        · rw [if_pos hn] at h
          rw [ih _ row n h (by rw [Props.get_set, if_neg hne]; exact hs),
            Props.get_set, if_neg hne]
        · rw [if_neg hn] at h
          exact absurd h (by simp)

theorem writeRow_get (schema : Schema) (props row : Props) (n : String)
    (hnd : (props.map Prod.fst).Nodup)
    (h : writeRow schema props = some row) (hs : (props.get n).isSome) :
    row.get n = props.get n := by
  unfold writeRow at h
  cases hw : setAllValues schema props [] with
  | none => rw [hw] at h; exact absurd h (by simp)
  | some w =>
    rw [hw] at h
    obtain ⟨sm, _⟩ := setAll_get schema props [] w hw hnd
    have hwg : w.get n = props.get n := sm n (Props.get_isSome_mem props n hs)
    rw [finishRow_get_preserve schema.fields w row n h (by rw [hwg]; exact hs), hwg]

theorem insertTagProps_inv (cfg : TagExecCfg) (partId : Nat) (vId : String)
    (st : TagRunState) (h : insertTagProps cfg partId vId = Except.ok st) :
    ∃ schema tagName props0,
      getLatestTagSchemaAndName cfg.tagContext cfg.tagId = Except.ok (schema, tagName) ∧
      checkPropsAndGetDefaultValue schema false cfg.depPropMap = Except.ok props0 ∧
      st.schema = schema ∧ st.props = props0 ∧
      st.key = Key.vertex partId vId cfg.tagId := by
  unfold insertTagProps at h
  cases hG : getLatestTagSchemaAndName cfg.tagContext cfg.tagId with
  | error e => rw [hG] at h; exact absurd h (by simp)
  | ok pr =>
    obtain ⟨schema, tagName⟩ := pr
    rw [hG] at h
    simp only at h
    cases hC : checkPropsAndGetDefaultValue schema false cfg.depPropMap with
    | error e => rw [hC] at h; exact absurd h (by simp)
    | ok props0 =>
      rw [hC] at h
      have hst := Except.ok.inj h
      subst hst
      exact ⟨schema, tagName, props0, rfl, hC, rfl, rfl, rfl⟩

/-- C5: an upsert on a missing row returns KeyNotFound and writes nothing
when insertable is false; when insertable is true, every column of the
committed row that is not a set-clause target equals its schema default
(evaluated under a null context) or null — justified by the column
having a default or being nullable — and if some non-target column has
neither a default nor nullability the executor returns
NoDefaultAndNotNullable and writes nothing. -/
theorem claim_C5 (cfg : TagExecCfg) (lockT : List VMLI) (chain : ChainResult)
    (apc : ErrorCode) (partId : Nat) (vId : String)
    (hlock : (cfg.spaceId, partId, cfg.tagId, vId) ∉ lockT)
    (hcode : chain.code = ErrorCode.SUCCEEDED)
    (hstat : chain.resultStat = ResultStatus.normal)
    (hmiss : chain.reader = none) :
    (cfg.insertable = false →
      (UpdateTagNode_execute cfg lockT chain apc partId vId).code =
        ErrorCode.E_STORAGE_KVSTORE_KEY_NOT_FOUND ∧
      (UpdateTagNode_execute cfg lockT chain apc partId vId).appends = []) ∧
    (cfg.insertable = true →
      ∀ schema tagName,
        getLatestTagSchemaAndName cfg.tagContext cfg.tagId = Except.ok (schema, tagName) →
        (schema.fields.map Field.name).Nodup →
        cfg.depPropMap.map Prod.fst = cfg.updatedProps.map UpdatedProp.name →
        ((∀ st b row,
            tagBranch cfg chain partId vId = Except.ok st →
            (UpdateTagNode_execute cfg lockT chain apc partId vId).appends = [b] →
            b.getLast? = some (BatchOp.put st.key (BVal.rowV row)) →
            ∀ f ∈ st.schema.fields, f.name ∉ cfg.updatedProps.map UpdatedProp.name →
              row.get f.name = some (fieldDefault f) ∧
                (f.defaultVal.isSome ∨ f.nullable = true)) ∧
         ((∀ pr ∈ cfg.depPropMap, (schema.field pr.1).isSome ∧
              ∀ n ∈ pr.2, (schema.field n).isSome) →
          (∃ f ∈ schema.fields, f.name ∉ cfg.depPropMap.map Prod.fst ∧
              f.defaultVal = none ∧ f.nullable = false) →
          (UpdateTagNode_execute cfg lockT chain apc partId vId).code =
            ErrorCode.E_STORAGE_SCHEMA_NO_DEFAULT_VALUE_AND_NOT_NULLABLE ∧
          (UpdateTagNode_execute cfg lockT chain apc partId vId).appends = []))) := by
  constructor
  · intro hins
    have hbr : tagBranch cfg chain partId vId =
        Except.error ErrorCode.E_STORAGE_KVSTORE_KEY_NOT_FOUND := by
      unfold tagBranch
      rw [hmiss]
      simp only
      rw [hins]
      simp
    have hout : UpdateTagNode_execute cfg lockT chain apc partId vId =
        ⟨ErrorCode.E_STORAGE_KVSTORE_KEY_NOT_FOUND, [], true, none,
         chain.reader.isNone && cfg.insertable⟩ := by
      unfold UpdateTagNode_execute
      rw [if_neg hlock, if_pos hcode, hstat]
      simp only
      rw [hbr]
    rw [hout]
    exact ⟨rfl, rfl⟩
  · intro hins schema tagName hG hnodup hmatch
    constructor
    · intro st b row hbr happ hlast f hf hft
      have hbr2 : insertTagProps cfg partId vId = Except.ok st := by
        unfold tagBranch at hbr
        rw [hmiss] at hbr
        simp only at hbr
        rw [if_pos hins] at hbr
        exact hbr
      obtain ⟨schema2, tagName2, props0, hG2, hC, hsch, hpr, hkey⟩ :=
        insertTagProps_inv cfg partId vId st hbr2
      have hse : schema2 = schema := by
        rw [hG] at hG2
        exact (congrArg Prod.fst (Except.ok.inj hG2)).symm
      rw [hse] at hC
      rcases tagExec_appends_shape cfg lockT chain apc partId vId with
        hsh | ⟨st', b', hbr', hwb', happ'⟩
      · rw [hsh] at happ
        exact absurd happ (by simp)
      · rw [happ'] at happ
        have hbb : b' = b := by simpa using happ
        subst hbb
        have hst : st = st' := by
          rw [hbr] at hbr'
          exact Except.ok.inj hbr'
        subst hst
        obtain ⟨p2, c2, row', ops, hA, hW, hO, hshape⟩ :=
          updateTagAndWriteBack_inv cfg st partId vId b' hwb'
        have hlast2 : b'.getLast? = some (BatchOp.put st.key (BVal.rowV row')) := by
          rw [hshape, List.getLast?_concat]
        have hrr : row' = row := by
          have h12 := hlast2.symm.trans hlast
          simp at h12
          exact h12
        subst hrr
        obtain ⟨hchar, hnodup0⟩ := checkProps_ok_char schema false cfg.depPropMap props0
          hnodup hC
        have hf2 : f ∈ schema.fields := by
          rw [hsch, hse] at hf
          exact hf
        have hft2 : f.name ∉ cfg.depPropMap.map Prod.fst := by
          rw [hmatch]
          exact hft
        obtain ⟨hget0, hside⟩ := hchar f hf2 hft2
        rw [hpr] at hA
        have hp2get : p2.get f.name = props0.get f.name :=
          applyUpdates_preserve cfg.updatedProps props0 st.ctx p2 c2 hA f.name hft
        have hnodup2 : (p2.map Prod.fst).Nodup :=
          applyUpdates_nodup cfg.updatedProps props0 st.ctx p2 c2 hA hnodup0
        have hs2 : (p2.get f.name).isSome := by
          rw [hp2get, hget0]
          rfl
        have hrowget : row'.get f.name = p2.get f.name :=
          writeRow_get st.schema p2 row' f.name hnodup2 hW hs2
        rw [hrowget, hp2get, hget0]
        exact ⟨rfl, hside⟩
    · intro hflds hbad
      obtain ⟨f, hf, hnt, hdnone, hnn⟩ := hbad
      cases hC : checkPropsAndGetDefaultValue schema false cfg.depPropMap with
      | ok props0 =>
        exfalso
        obtain ⟨hchar, _⟩ := checkProps_ok_char schema false cfg.depPropMap props0
          hnodup hC
        rcases (hchar f hf hnt).2 with hd | hn
        · rw [hdnone] at hd
          exact absurd hd (by simp)
        · rw [hnn] at hn
          exact absurd hn (by simp)
      | error e =>
        have he : e = ErrorCode.E_STORAGE_SCHEMA_NO_DEFAULT_VALUE_AND_NOT_NULLABLE :=
          checkProps_err schema false cfg.depPropMap e hC hflds
        have hbr : tagBranch cfg chain partId vId = Except.error e := by
          unfold tagBranch
          rw [hmiss]
          simp only
          rw [if_pos hins]
          unfold insertTagProps
          rw [hG]
          simp only
          rw [hC]
        have hout : UpdateTagNode_execute cfg lockT chain apc partId vId =
            ⟨e, [], true, none, chain.reader.isNone && cfg.insertable⟩ := by
          unfold UpdateTagNode_execute
          rw [if_neg hlock, if_pos hcode, hstat]
          simp only
          rw [hbr]
        rw [hout, he]
        exact ⟨rfl, rfl⟩

theorem claim_C5_witness :
    ((UpdateTagNode_execute cfgT0 [] chain0 ErrorCode.SUCCEEDED 0 "v").code =
        ErrorCode.E_STORAGE_KVSTORE_KEY_NOT_FOUND ∧
      (UpdateTagNode_execute cfgT0 [] chain0 ErrorCode.SUCCEEDED 0 "v").appends = []) ∧
    (Props.get [("c", Value.null)] "c" =
        some (fieldDefault ⟨"c", true, none, fun _ => true⟩) ∧
      ((⟨"c", true, none, fun _ => true⟩ : Field).defaultVal.isSome = true ∨
        (⟨"c", true, none, fun _ => true⟩ : Field).nullable = true)) :=
  ⟨(claim_C5 cfgT0 [] chain0 ErrorCode.SUCCEEDED 0 "v" (by decide) rfl rfl rfl).1 rfl,
   ((claim_C5 cfgT1 [] chain0 ErrorCode.SUCCEEDED 0 "v" (by decide) rfl rfl rfl).2 rfl
      schemaA "person" rfl (by decide) rfl).1 stT1
      [BatchOp.put (Key.vertex 0 "v" 2) (BVal.rowV [("c", Value.null)])]
      [("c", Value.null)] rfl (by decide) (by decide)
      ⟨"c", true, none, fun _ => true⟩ (List.mem_singleton.mpr rfl) (by decide)⟩

end NebulaStorage
